import Mathlib

/-!
Verification of the miniOS memory allocator (src/core/memory/memory_manager.cpp,
memory_manager.h) against its natural-language specification.

The C++ class `MemoryManager` keeps an address-ordered `std::vector<MemoryBlock>`
partitioning a fixed arena, plus cached counters `totalMemory`, `freeMemory` and a
flag `isInitialized`.  We embed it shallowly: the vector becomes a `List`, the
index-based vector manipulations (`memoryBlocks[i]`, `insert`, `erase`, in-place
field writes) become structurally recursive list functions walking to the index,
and `size_t` becomes `Nat` (subtraction sites are exercised only where the code's
guards make them exact; this is proved, not assumed).  The C++ functions signal
errors by returning 0/false and printing a distinct diagnostic per branch; we
return an error value identifying the branch taken, together with the function
`allocReturnValue` giving the raw `size_t` the C++ function actually returns.
-/

deriving instance DecidableEq for Except

namespace MiniOS

/-- Embeds `struct MemoryBlock` (memory_manager.h): starting address, size in
bytes, allocated flag, owning process id (−1 when free). -/
structure MemoryBlock where
  address : Nat
  size : Nat
  allocated : Bool
  pid : Int
deriving DecidableEq, Repr

/-- Embeds the state of class `MemoryManager`: block list, total and cached free
byte counters, and the initialization flag. -/
structure MemoryManager where
  memoryBlocks : List MemoryBlock
  totalMemory : Nat
  freeMemory : Nat
  isInitialized : Bool
deriving DecidableEq, Repr

/-- Embeds `DEFAULT_MEMORY_SIZE` (memory_manager.cpp line 8). -/
def DEFAULT_MEMORY_SIZE : Nat := 1024 * 1024

/-- Embeds the `MemoryManager` constructor, generalized over the capacity the
constructor hard-codes to `DEFAULT_MEMORY_SIZE` (the spec treats capacity as the
`initialize` parameter; concrete scenarios in the spec use capacity 1024). -/
def mkManager (capacity : Nat) : MemoryManager :=
  ⟨[], capacity, capacity, false⟩

/-- Embeds `MemoryManager::initialize`: one free block spanning the whole arena,
free counter reset to the total, flag set.  (Named `initializeManager` in this
development.) -/
def initializeManager (m : MemoryManager) : MemoryManager :=
  { m with
      memoryBlocks := [⟨0, m.totalMemory, false, -1⟩],
      freeMemory := m.totalMemory,
      isInitialized := true }

/-- Embeds `MemoryManager::findFreeBlock`: index of the first block that is not
allocated and has size at least `size`, scanning from the front (first fit). -/
def findFreeBlockIdx (size : Nat) : List MemoryBlock → Option Nat
  | [] => none
  | b :: rest =>
    if b.allocated = false ∧ size ≤ b.size then some 0
    else (findFreeBlockIdx size rest).map (· + 1)

/-- Embeds `MemoryManager::findBlockByAddress`: index of the first block whose
address equals `address`. -/
def findBlockIdxByAddress (address : Nat) : List MemoryBlock → Option Nat
  | [] => none
  | b :: rest =>
    if b.address = address then some 0
    else (findBlockIdxByAddress address rest).map (· + 1)

/-- Vector indexing `memoryBlocks[i]`; the default is never reached at the call
sites, where the index comes from a successful search. -/
def blockAt (blocks : List MemoryBlock) (i : Nat) : MemoryBlock :=
  (blocks.get? i).getD ⟨0, 0, false, -1⟩

/-- Embeds `MemoryManager::splitBlock`: if the remainder `block.size - size` is
below 64 bytes, leave the list unchanged; otherwise shrink the block at the
index to `size` and insert a new free block carrying the remainder right after
it. -/
def splitBlock (size : Nat) : List MemoryBlock → Nat → List MemoryBlock
  | [], _ => []
  | b :: rest, 0 =>
    if b.size - size < 64 then b :: rest
    else { b with size := size } :: ⟨b.address + size, b.size - size, false, -1⟩ :: rest
  | b :: rest, i + 1 => b :: splitBlock size rest i

/-- The in-place writes `block.allocated = true; block.pid = pid` at the found
index (memory_manager.cpp lines 73–74). -/
def markAllocated (pid : Int) : List MemoryBlock → Nat → List MemoryBlock
  | [], _ => []
  | b :: rest, 0 => { b with allocated := true, pid := pid } :: rest
  | b :: rest, i + 1 => b :: markAllocated pid rest i

/-- The in-place writes `block.allocated = false; block.pid = -1` at the found
index (memory_manager.cpp lines 106–107). -/
def markFree : List MemoryBlock → Nat → List MemoryBlock
  | [], _ => []
  | b :: rest, 0 => { b with allocated := false, pid := -1 } :: rest
  | b :: rest, i + 1 => b :: markFree rest i

/-- The merge condition of `MemoryManager::mergeBlocks` (lines 288–289): both
blocks free and address-contiguous. -/
def mergeablePair (x y : MemoryBlock) : Bool :=
  !x.allocated && !y.allocated && (x.address + x.size == y.address)

/-- One pass of the scan inside `MemoryManager::mergeBlocks`: find the first
mergeable adjacent pair, absorb the second block into the first (`current.size
+= next.size; erase(next)`), and report whether a merge happened. -/
def mergeOnceAux : List MemoryBlock → Option (List MemoryBlock)
  | x :: y :: rest =>
    if mergeablePair x y then some ({ x with size := x.size + y.size } :: rest)
    else (mergeOnceAux (y :: rest)).map (x :: ·)
  | _ => none

/-- The `do … while (merged)` loop of `MemoryManager::mergeBlocks`, with explicit
fuel.  Each merge shortens the list by one, so `blocks.length` steps reach the
loop's fixed point (proved below as `mergeOnceAux_mergeBlocks`). -/
def mergeBlocksFuel : Nat → List MemoryBlock → List MemoryBlock
  | 0, blocks => blocks
  | fuel + 1, blocks =>
    match mergeOnceAux blocks with
    | none => blocks
    | some blocks' => mergeBlocksFuel fuel blocks'

/-- Embeds `MemoryManager::mergeBlocks`: merge adjacent free pairs, restarting
after each merge, until no merge applies. -/
def mergeBlocks (blocks : List MemoryBlock) : List MemoryBlock :=
  mergeBlocksFuel blocks.length blocks

/-- The four early-return failure branches of `MemoryManager::allocate`, each of
which prints its own diagnostic before returning 0. -/
inductive AllocError where
  | notInitialized
  | invalidSize
  | outOfMemory
  | noSuitableBlock
deriving DecidableEq, Repr

/-- Embeds `MemoryManager::allocate`.  The `Except` value records which branch
of the C++ function ran (the branches are observably distinct through their
diagnostics); `allocReturnValue` below recovers the raw `size_t` return value. -/
def MemoryManager.allocate (m : MemoryManager) (size : Nat) (pid : Int) :
    Except AllocError Nat × MemoryManager :=
  if m.isInitialized = false then (Except.error AllocError.notInitialized, m)
  else if size = 0 then (Except.error AllocError.invalidSize, m)
  else if m.freeMemory < size then (Except.error AllocError.outOfMemory, m)
  else
    match findFreeBlockIdx size m.memoryBlocks with
    | none => (Except.error AllocError.noSuitableBlock, m)
    | some blockIndex =>
      let blocks₁ :=
        if size < (blockAt m.memoryBlocks blockIndex).size then
          splitBlock size m.memoryBlocks blockIndex
        else m.memoryBlocks
      let block := blockAt blocks₁ blockIndex
      (Except.ok block.address,
        { m with
            memoryBlocks := markAllocated pid blocks₁ blockIndex,
            freeMemory := m.freeMemory - block.size })

/-- The `size_t` value the C++ `allocate` actually returns: the block address on
success and 0 on every failure path. -/
def allocReturnValue : Except AllocError Nat → Nat
  | Except.ok a => a
  | Except.error _ => 0

/-- The three failure branches of `MemoryManager::free`, each printing its own
diagnostic before returning false. -/
inductive FreeError where
  | notInitialized
  | notFound
  | doubleFree
deriving DecidableEq, Repr

/-- Embeds `MemoryManager::free`: look the address up, reject a block that is
already free, otherwise mark it free, bump the free counter, and coalesce. -/
def MemoryManager.free (m : MemoryManager) (address : Nat) :
    Except FreeError Unit × MemoryManager :=
  if m.isInitialized = false then (Except.error FreeError.notInitialized, m)
  else
    match findBlockIdxByAddress address m.memoryBlocks with
    | none => (Except.error FreeError.notFound, m)
    | some blockIndex =>
      let block := blockAt m.memoryBlocks blockIndex
      if block.allocated = false then (Except.error FreeError.doubleFree, m)
      else
        (Except.ok (),
          { m with
              memoryBlocks := mergeBlocks (markFree m.memoryBlocks blockIndex),
              freeMemory := m.freeMemory + block.size })

/-- The marking loop of `MemoryManager::freeProcessMemory`: every block owned by
`pid` becomes free with pid −1. -/
def releaseOwned (pid : Int) (blocks : List MemoryBlock) : List MemoryBlock :=
  blocks.map fun b =>
    if b.allocated = true ∧ b.pid = pid then { b with allocated := false, pid := -1 } else b

/-- The byte count `freedMemory` accumulated by that loop. -/
def ownedSize (pid : Int) (blocks : List MemoryBlock) : Nat :=
  ((blocks.filter fun b => b.allocated = true ∧ b.pid = pid).map MemoryBlock.size).sum

/-- Embeds `MemoryManager::freeProcessMemory`: release every block owned by
`pid`, add the released bytes to the free counter, coalesce, and return the
released byte count. -/
def MemoryManager.freeProcessMemory (m : MemoryManager) (pid : Int) :
    Nat × MemoryManager :=
  if m.isInitialized = false then (0, m)
  else
    (ownedSize pid m.memoryBlocks,
      { m with
          memoryBlocks := mergeBlocks (releaseOwned pid m.memoryBlocks),
          freeMemory := m.freeMemory + ownedSize pid m.memoryBlocks })

/-- The numbers printed by `MemoryManager::getMemoryStats`: total, free, used
(computed there as `totalMemory - freeMemory`) and the block count. -/
structure MemoryStats where
  totalMemory : Nat
  freeMemory : Nat
  usedMemory : Nat
  blockCount : Nat
deriving DecidableEq, Repr

/-- Embeds the figures reported by `MemoryManager::getMemoryStats` (the string
formatting is not modelled). -/
def MemoryManager.getMemoryStats (m : MemoryManager) : MemoryStats :=
  ⟨m.totalMemory, m.freeMemory, m.totalMemory - m.freeMemory, m.memoryBlocks.length⟩

/-- Embeds the `mem-alloc` branch of `MemoryManager::handleCommand` after
successful argument parsing: call `allocate` and report success exactly when the
returned address is nonzero. -/
def memAllocReply (m : MemoryManager) (size : Nat) (pid : Int) :
    String × MemoryManager :=
  let r := m.allocate size pid
  (if allocReturnValue r.1 ≠ 0 then
      "Memory allocated at address " ++ toString (allocReturnValue r.1)
    else "Failed to allocate memory",
   r.2)

/-- A public operation on the arena, as named by the specification. -/
inductive Op where
  | init
  | alloc (size : Nat) (pid : Int)
  | free (address : Nat)
  | freeOwner (pid : Int)
deriving DecidableEq, Repr

/-- State reached after one public operation. -/
def MemoryManager.applyOp (m : MemoryManager) : Op → MemoryManager
  | Op.init => initializeManager m
  | Op.alloc s p => (m.allocate s p).2
  | Op.free a => (m.free a).2
  | Op.freeOwner p => (m.freeProcessMemory p).2

/-- State reached after a sequence of public operations. -/
def MemoryManager.run (m : MemoryManager) (ops : List Op) : MemoryManager :=
  ops.foldl MemoryManager.applyOp m

/-! Invariant definitions (the properties of spec sections 3 and 8). -/

/-- Chain of a binary condition over consecutive entries of a list. -/
def chainPred (f : MemoryBlock → MemoryBlock → Bool) : List MemoryBlock → Bool
  | x :: y :: rest => f x y && chainPred f (y :: rest)
  | _ => true

/-- No two consecutive blocks are both free (spec: no-adjacent-free). -/
def noAdjacentFree : List MemoryBlock → Bool :=
  chainPred fun x y => x.allocated || y.allocated

/-- No consecutive pair satisfies the merge condition of `mergeBlocks`. -/
def noMergeable : List MemoryBlock → Bool :=
  chainPred fun x y => !mergeablePair x y

/-- Each block ends exactly where the next one starts. -/
def pairwiseContig : List MemoryBlock → Bool :=
  chainPred fun x y => x.address + x.size == y.address

/-- Addresses are strictly increasing along the list. -/
def addrSorted : List MemoryBlock → Bool :=
  chainPred fun x y => decide (x.address < y.address)

/-- The blocks, in list order, tile the half-open range from `addr` to
`capacity`: each block starts at the running address, has positive size, and the
running address ends at `capacity` (spec: partition invariant, with `addr = 0`). -/
def blocksPartitionFrom (addr capacity : Nat) : List MemoryBlock → Bool
  | [] => addr == capacity
  | b :: rest =>
    (b.address == addr) && decide (0 < b.size) &&
      blocksPartitionFrom (addr + b.size) capacity rest

/-- Sum of the sizes of the free blocks. -/
def freeSum (blocks : List MemoryBlock) : Nat :=
  ((blocks.filter fun b => b.allocated = false).map MemoryBlock.size).sum

/-- Sum of all block sizes. -/
def sizeSum (blocks : List MemoryBlock) : Nat :=
  (blocks.map MemoryBlock.size).sum

/-- Every free block carries the sentinel pid −1. -/
def freePidOk (blocks : List MemoryBlock) : Bool :=
  blocks.all fun b => b.allocated || b.pid == -1

/-- The well-formedness invariant maintained by every public operation on an
initialized arena with positive capacity. -/
def WF (m : MemoryManager) : Prop :=
  0 < m.totalMemory ∧
  m.isInitialized = true ∧
  blocksPartitionFrom 0 m.totalMemory m.memoryBlocks = true ∧
  noAdjacentFree m.memoryBlocks = true ∧
  m.freeMemory = freeSum m.memoryBlocks ∧
  freePidOk m.memoryBlocks = true

instance (m : MemoryManager) : Decidable (WF m) := by
  unfold WF
  infer_instance

/-! Helper lemmas about the chain predicates. -/

theorem chainPred_append_iff (f : MemoryBlock → MemoryBlock → Bool)
    (p : List MemoryBlock) (x : MemoryBlock) (rest : List MemoryBlock) :
    chainPred f (p ++ x :: rest) = true ↔
      chainPred f (p ++ [x]) = true ∧ chainPred f (x :: rest) = true := by
  induction p with
  | nil =>
    cases rest <;> simp [chainPred]
  | cons a p ih =>
    cases p with
    | nil => cases rest <;> simp [chainPred, and_assoc]
    | cons b p' =>
      simp only [List.cons_append, List.append_eq, chainPred, Bool.and_eq_true] at ih ⊢
      rw [ih]
      tauto

theorem chainPred_append_singleton (f : MemoryBlock → MemoryBlock → Bool)
    (p : List MemoryBlock) (x : MemoryBlock) :
    chainPred f (p ++ [x]) = true ↔
      chainPred f p = true ∧ ∀ u, p.getLast? = some u → f u x = true := by
  induction p with
  | nil => simp [chainPred]
  | cons a p ih =>
    cases p with
    | nil => simp [chainPred]
    | cons b p' =>
      simp only [List.cons_append, List.append_eq, chainPred, Bool.and_eq_true] at ih ⊢
      rw [ih]
      simp only [List.getLast?_cons_cons]
      tauto

theorem chainPred_imp {f g : MemoryBlock → MemoryBlock → Bool}
    (h : ∀ x y, f x y = true → g x y = true) :
    ∀ l, chainPred f l = true → chainPred g l = true := by
  intro l
  induction l with
  | nil => simp [chainPred]
  | cons x l ih =>
    cases l with
    | nil => simp [chainPred]
    | cons y rest =>
      simp only [chainPred, Bool.and_eq_true]
      exact fun ⟨h1, h2⟩ => ⟨h x y h1, ih h2⟩

theorem chainPred_imp₂ {f g h : MemoryBlock → MemoryBlock → Bool}
    (himp : ∀ x y, f x y = true → g x y = true → h x y = true) :
    ∀ l, chainPred f l = true → chainPred g l = true → chainPred h l = true := by
  intro l
  induction l with
  | nil => simp [chainPred]
  | cons x l ih =>
    cases l with
    | nil => simp [chainPred]
    | cons y rest =>
      simp only [chainPred, Bool.and_eq_true]
      exact fun ⟨h1, h2⟩ ⟨h3, h4⟩ => ⟨himp x y h1 h3, ih h2 h4⟩

/-! Helper lemmas about the partition predicate. -/

theorem sizeSum_cons (b : MemoryBlock) (l : List MemoryBlock) :
    sizeSum (b :: l) = b.size + sizeSum l := by
  simp [sizeSum]

theorem partition_append (p rest : List MemoryBlock) (a cap : Nat) :
    blocksPartitionFrom a cap (p ++ rest) = true ↔
      blocksPartitionFrom a (a + sizeSum p) p = true ∧
      blocksPartitionFrom (a + sizeSum p) cap rest = true := by
  induction p generalizing a with
  | nil => simp [blocksPartitionFrom, sizeSum]
  | cons b p ih =>
    simp only [List.cons_append, List.append_eq, blocksPartitionFrom, Bool.and_eq_true,
      beq_iff_eq, decide_eq_true_eq, sizeSum_cons]
    rw [ih]
    constructor
    · rintro ⟨⟨h1, h2⟩, h3, h4⟩
      refine ⟨⟨⟨h1, h2⟩, ?_⟩, ?_⟩ <;> rw [← Nat.add_assoc] <;> assumption
    · rintro ⟨⟨⟨h1, h2⟩, h3⟩, h4⟩
      rw [← Nat.add_assoc] at h3 h4
      exact ⟨⟨h1, h2⟩, h3, h4⟩

theorem partition_le {a cap : Nat} :
    ∀ {l : List MemoryBlock}, blocksPartitionFrom a cap l = true → a ≤ cap := by
  intro l
  induction l generalizing a with
  | nil =>
    simp only [blocksPartitionFrom, beq_iff_eq]
    omega
  | cons b l ih =>
    simp only [blocksPartitionFrom, Bool.and_eq_true, beq_iff_eq, decide_eq_true_eq]
    rintro ⟨⟨h1, h2⟩, h3⟩
    have := ih h3
    omega

theorem partition_sizeSum {a cap : Nat} :
    ∀ {l : List MemoryBlock}, blocksPartitionFrom a cap l = true →
      a + sizeSum l = cap := by
  intro l
  induction l generalizing a with
  | nil =>
    simp only [blocksPartitionFrom, beq_iff_eq, sizeSum, List.map_nil, List.sum_nil]
    omega
  | cons b l ih =>
    simp only [blocksPartitionFrom, Bool.and_eq_true, beq_iff_eq, decide_eq_true_eq,
      sizeSum_cons]
    rintro ⟨⟨h1, h2⟩, h3⟩
    have := ih h3
    omega

theorem partition_mem_bounds {a cap : Nat} :
    ∀ {l : List MemoryBlock}, blocksPartitionFrom a cap l = true →
      ∀ x ∈ l, a ≤ x.address ∧ x.address < cap := by
  intro l
  induction l generalizing a with
  | nil => simp
  | cons b l ih =>
    simp only [blocksPartitionFrom, Bool.and_eq_true, beq_iff_eq, decide_eq_true_eq,
      List.mem_cons]
    rintro ⟨⟨h1, h2⟩, h3⟩ x hx
    rcases hx with rfl | hx
    · have := partition_le h3
      omega
    · have := ih h3 x hx
      omega

theorem partition_contig {a cap : Nat} :
    ∀ {l : List MemoryBlock}, blocksPartitionFrom a cap l = true →
      pairwiseContig l = true := by
  intro l
  induction l generalizing a with
  | nil => simp [pairwiseContig, chainPred]
  | cons b l ih =>
    cases l with
    | nil => simp [pairwiseContig, chainPred]
    | cons c l' =>
      simp only [blocksPartitionFrom, Bool.and_eq_true, beq_iff_eq, decide_eq_true_eq,
        pairwiseContig, chainPred] at *
      rintro ⟨⟨h1, h2⟩, ⟨h3, h4⟩, h5⟩
      exact ⟨by omega, ih ⟨⟨h3, h4⟩, h5⟩⟩

theorem partition_sorted {a cap : Nat} :
    ∀ {l : List MemoryBlock}, blocksPartitionFrom a cap l = true →
      addrSorted l = true := by
  intro l
  induction l generalizing a with
  | nil => simp [addrSorted, chainPred]
  | cons b l ih =>
    cases l with
    | nil => simp [addrSorted, chainPred]
    | cons c l' =>
      simp only [blocksPartitionFrom, Bool.and_eq_true, beq_iff_eq, decide_eq_true_eq,
        addrSorted, chainPred] at *
      rintro ⟨⟨h1, h2⟩, ⟨h3, h4⟩, h5⟩
      exact ⟨by omega, ih ⟨⟨h3, h4⟩, h5⟩⟩

/-! Helper lemmas about the byte sums. -/

theorem freeSum_nil : freeSum [] = 0 := rfl

theorem freeSum_cons (b : MemoryBlock) (l : List MemoryBlock) :
    freeSum (b :: l) = (if b.allocated = false then b.size else 0) + freeSum l := by
  by_cases hb : b.allocated = false <;> simp [freeSum, List.filter_cons, hb]

theorem freeSum_append (l₁ l₂ : List MemoryBlock) :
    freeSum (l₁ ++ l₂) = freeSum l₁ + freeSum l₂ := by
  simp [freeSum, List.filter_append]

theorem sizeSum_append (l₁ l₂ : List MemoryBlock) :
    sizeSum (l₁ ++ l₂) = sizeSum l₁ + sizeSum l₂ := by
  simp [sizeSum]

theorem freeSum_le_sizeSum : ∀ l : List MemoryBlock, freeSum l ≤ sizeSum l := by
  intro l
  induction l with
  | nil => simp [freeSum, sizeSum]
  | cons b l ih =>
    rw [freeSum_cons, sizeSum_cons]
    split <;> omega

/-! Specifications of the linear searches. -/

theorem findFreeBlockIdx_some (size : Nat) :
    ∀ l i, findFreeBlockIdx size l = some i →
      ∃ p b rest, l = p ++ b :: rest ∧ p.length = i ∧
        b.allocated = false ∧ size ≤ b.size ∧
        ∀ x ∈ p, ¬(x.allocated = false ∧ size ≤ x.size) := by
  intro l
  induction l with
  | nil => intro i h; simp [findFreeBlockIdx] at h
  | cons b rest ih =>
    intro i h
    simp only [findFreeBlockIdx] at h
    split at h
    · rename_i hcond
      refine ⟨[], b, rest, by simp, Option.some.inj h, hcond.1, hcond.2, by simp⟩
    · rename_i hcond
      rcases Option.map_eq_some'.mp h with ⟨j, hj, rfl⟩
      rcases ih j hj with ⟨p, b', rest', rfl, hlen, hfree, hsize, hp⟩
      exact ⟨b :: p, b', rest', rfl, by simp [hlen], hfree, hsize, by
        intro x hx
        rcases List.mem_cons.mp hx with rfl | hx
        · exact hcond
        · exact hp x hx⟩

theorem findFreeBlockIdx_none (size : Nat) :
    ∀ l, findFreeBlockIdx size l = none ↔
      ∀ b ∈ l, b.allocated = true ∨ b.size < size := by
  intro l
  induction l with
  | nil => simp [findFreeBlockIdx]
  | cons b rest ih =>
    simp only [findFreeBlockIdx, List.mem_cons]
    split
    · rename_i hcond
      simp only [reduceCtorEq, false_iff]
      push_neg
      exact ⟨b, Or.inl rfl, by
        rcases hcond with ⟨h1, h2⟩
        simp [h1]
        omega⟩
    · rename_i hcond
      rw [Option.map_eq_none', ih]
      constructor
      · intro h x hx
        rcases hx with rfl | hx
        · rcases Decidable.not_and_iff_or_not.mp hcond with h1 | h2
          · left
            simpa using h1
          · right
            omega
        · exact h x hx
      · intro h x hx
        exact h x (Or.inr hx)

theorem findBlockIdxByAddress_some (a : Nat) :
    ∀ l i, findBlockIdxByAddress a l = some i →
      ∃ p b rest, l = p ++ b :: rest ∧ p.length = i ∧ b.address = a ∧
        ∀ x ∈ p, x.address ≠ a := by
  intro l
  induction l with
  | nil => intro i h; simp [findBlockIdxByAddress] at h
  | cons b rest ih =>
    intro i h
    simp only [findBlockIdxByAddress] at h
    split at h
    · rename_i hcond
      exact ⟨[], b, rest, by simp, Option.some.inj h, hcond, by simp⟩
    · rename_i hcond
      rcases Option.map_eq_some'.mp h with ⟨j, hj, rfl⟩
      rcases ih j hj with ⟨p, b', rest', rfl, hlen, haddr, hp⟩
      exact ⟨b :: p, b', rest', rfl, by simp [hlen], haddr, by
        intro x hx
        rcases List.mem_cons.mp hx with rfl | hx
        · exact hcond
        · exact hp x hx⟩

theorem findBlockIdxByAddress_none (a : Nat) :
    ∀ l, findBlockIdxByAddress a l = none ↔ ∀ b ∈ l, b.address ≠ a := by
  intro l
  induction l with
  | nil => simp [findBlockIdxByAddress]
  | cons b rest ih =>
    simp only [findBlockIdxByAddress, List.mem_cons]
    split
    · rename_i hcond
      simp only [reduceCtorEq, false_iff]
      push_neg
      exact ⟨b, Or.inl rfl, hcond⟩
    · rename_i hcond
      rw [Option.map_eq_none', ih]
      constructor
      · intro h x hx
        rcases hx with rfl | hx
        · exact hcond
        · exact h x hx
      · intro h x hx
        exact h x (Or.inr hx)

theorem findBlockIdxByAddress_append (a : Nat) (p : List MemoryBlock)
    (b : MemoryBlock) (rest : List MemoryBlock)
    (hp : ∀ x ∈ p, x.address ≠ a) (hb : b.address = a) :
    findBlockIdxByAddress a (p ++ b :: rest) = some p.length := by
  induction p with
  | nil => simp [findBlockIdxByAddress, hb]
  | cons x p ih =>
    have hx : x.address ≠ a := hp x (by simp)
    simp only [List.cons_append, List.append_eq, findBlockIdxByAddress, hx, if_false,
      List.length_cons]
    rw [ih fun y hy => hp y (by simp [hy])]
    rfl

/-! Index-walk lemmas relating the recursive list updates to appends. -/

theorem blockAt_append (p : List MemoryBlock) (b : MemoryBlock)
    (rest : List MemoryBlock) : blockAt (p ++ b :: rest) p.length = b := by
  induction p with
  | nil => rfl
  | cons a p ih => simpa [blockAt, List.get?] using ih

theorem splitBlock_append (s : Nat) (p : List MemoryBlock) (b : MemoryBlock)
    (rest : List MemoryBlock) :
    splitBlock s (p ++ b :: rest) p.length =
      p ++ (if b.size - s < 64 then b :: rest
            else { b with size := s } ::
              ⟨b.address + s, b.size - s, false, -1⟩ :: rest) := by
  induction p with
  | nil => simp [splitBlock]
  | cons a p ih => simp [splitBlock, ih]

theorem markAllocated_append (pid : Int) (p : List MemoryBlock) (b : MemoryBlock)
    (rest : List MemoryBlock) :
    markAllocated pid (p ++ b :: rest) p.length =
      p ++ { b with allocated := true, pid := pid } :: rest := by
  induction p with
  | nil => simp [markAllocated]
  | cons a p ih => simp [markAllocated, ih]

theorem markFree_append (p : List MemoryBlock) (b : MemoryBlock)
    (rest : List MemoryBlock) :
    markFree (p ++ b :: rest) p.length =
      p ++ { b with allocated := false, pid := -1 } :: rest := by
  induction p with
  | nil => simp [markFree]
  | cons a p ih => simp [markFree, ih]

/-! Lemmas about the coalescing loop. -/

theorem mergeablePair_iff (x y : MemoryBlock) :
    mergeablePair x y = true ↔
      x.allocated = false ∧ y.allocated = false ∧ x.address + x.size = y.address := by
  simp [mergeablePair, Bool.and_eq_true, Bool.not_eq_true', and_assoc]

theorem mergeOnceAux_none_iff :
    ∀ l, mergeOnceAux l = none ↔ noMergeable l = true := by
  intro l
  induction l with
  | nil => simp [mergeOnceAux, noMergeable, chainPred]
  | cons x l ih =>
    cases l with
    | nil => simp [mergeOnceAux, noMergeable, chainPred]
    | cons y rest =>
      simp only [mergeOnceAux, noMergeable, chainPred, Bool.and_eq_true]
      split
      · rename_i hm
        simp [hm]
      · rename_i hm
        rw [Option.map_eq_none', ih]
        simp only [noMergeable] at ih ⊢
        simp [Bool.not_eq_true'] at hm ⊢
        simp [hm]

theorem mergeOnceAux_length :
    ∀ l l', mergeOnceAux l = some l' → l.length = l'.length + 1 := by
  intro l
  induction l with
  | nil => intro l' h; simp [mergeOnceAux] at h
  | cons x l ih =>
    intro l' h
    cases l with
    | nil => simp [mergeOnceAux] at h
    | cons y rest =>
      simp only [mergeOnceAux] at h
      split at h
      · cases h
        simp
      · rcases Option.map_eq_some'.mp h with ⟨l'', hl'', rfl⟩
        have := ih l'' hl''
        simp at this ⊢
        omega

theorem mergeBlocksFuel_of_none {l : List MemoryBlock}
    (h : mergeOnceAux l = none) : ∀ fuel, mergeBlocksFuel fuel l = l := by
  intro fuel
  cases fuel <;> simp [mergeBlocksFuel, h]

theorem mergeOnceAux_mergeBlocksFuel :
    ∀ fuel (l : List MemoryBlock), l.length ≤ fuel →
      mergeOnceAux (mergeBlocksFuel fuel l) = none := by
  intro fuel
  induction fuel with
  | zero =>
    intro l h
    have : l = [] := List.length_eq_zero.mp (Nat.le_zero.mp h)
    subst this
    rfl
  | succ f ih =>
    intro l h
    simp only [mergeBlocksFuel]
    cases hm : mergeOnceAux l with
    | none => exact hm
    | some l' =>
      have := mergeOnceAux_length l l' hm
      exact ih l' (by omega)

theorem mergeOnceAux_mergeBlocks (l : List MemoryBlock) :
    mergeOnceAux (mergeBlocks l) = none :=
  mergeOnceAux_mergeBlocksFuel l.length l (Nat.le_refl _)

theorem noMergeable_mergeBlocks (l : List MemoryBlock) :
    noMergeable (mergeBlocks l) = true :=
  (mergeOnceAux_none_iff _).mp (mergeOnceAux_mergeBlocks l)

theorem mergeBlocks_of_noMergeable {l : List MemoryBlock}
    (h : noMergeable l = true) : mergeBlocks l = l :=
  mergeBlocksFuel_of_none ((mergeOnceAux_none_iff _).mpr h) _

theorem mergeBlocksFuel_inv (P : List MemoryBlock → Prop)
    (hstep : ∀ l l', mergeOnceAux l = some l' → P l → P l') :
    ∀ fuel l, P l → P (mergeBlocksFuel fuel l) := by
  intro fuel
  induction fuel with
  | zero => intro l h; exact h
  | succ f ih =>
    intro l h
    simp only [mergeBlocksFuel]
    cases hm : mergeOnceAux l with
    | none => exact h
    | some l' => exact ih l' (hstep l l' hm h)

theorem mergeBlocks_inv (P : List MemoryBlock → Prop)
    (hstep : ∀ l l', mergeOnceAux l = some l' → P l → P l')
    (l : List MemoryBlock) (h : P l) : P (mergeBlocks l) :=
  mergeBlocksFuel_inv P hstep _ l h

theorem partition_cons (b : MemoryBlock) (l : List MemoryBlock) (a cap : Nat) :
    blocksPartitionFrom a cap (b :: l) = true ↔
      b.address = a ∧ 0 < b.size ∧ blocksPartitionFrom (a + b.size) cap l = true := by
  simp [blocksPartitionFrom, and_assoc]

theorem partition_mergeOnce {a cap : Nat} :
    ∀ l l', mergeOnceAux l = some l' →
      blocksPartitionFrom a cap l = true → blocksPartitionFrom a cap l' = true := by
  intro l
  induction l generalizing a with
  | nil => intro l' h; simp [mergeOnceAux] at h
  | cons x l ih =>
    intro l' h hp
    cases l with
    | nil => simp [mergeOnceAux] at h
    | cons y rest =>
      simp only [mergeOnceAux] at h
      split at h
      · rename_i hm
        cases h
        rcases (mergeablePair_iff x y).mp hm with ⟨hx, hy, hxy⟩
        rw [partition_cons] at hp
        rcases hp with ⟨h1, h2, hp⟩
        rw [partition_cons] at hp
        rcases hp with ⟨h3, h4, h5⟩
        rw [partition_cons]
        refine ⟨h1, show 0 < x.size + y.size by omega, ?_⟩
        show blocksPartitionFrom (a + (x.size + y.size)) cap rest = true
        have heq : a + (x.size + y.size) = a + x.size + y.size := by omega
        rw [heq]
        exact h5
      · rcases Option.map_eq_some'.mp h with ⟨l'', hl'', rfl⟩
        rw [partition_cons] at hp
        rw [partition_cons]
        exact ⟨hp.1, hp.2.1, ih l'' hl'' hp.2.2⟩

theorem freeSum_mergeOnce :
    ∀ l l', mergeOnceAux l = some l' → freeSum l' = freeSum l := by
  intro l
  induction l with
  | nil => intro l' h; simp [mergeOnceAux] at h
  | cons x l ih =>
    intro l' h
    cases l with
    | nil => simp [mergeOnceAux] at h
    | cons y rest =>
      simp only [mergeOnceAux] at h
      split at h
      · rename_i hm
        cases h
        rcases (mergeablePair_iff x y).mp hm with ⟨hx, hy, _⟩
        rw [freeSum_cons, freeSum_cons, freeSum_cons]
        simp [hx, hy]
        omega
      · rcases Option.map_eq_some'.mp h with ⟨l'', hl'', rfl⟩
        rw [freeSum_cons, freeSum_cons, ih l'' hl'']

theorem freePidOk_cons (b : MemoryBlock) (l : List MemoryBlock) :
    freePidOk (b :: l) = true ↔
      (b.allocated = true ∨ b.pid = -1) ∧ freePidOk l = true := by
  simp [freePidOk, List.all_cons]

theorem freePidOk_mergeOnce :
    ∀ l l', mergeOnceAux l = some l' → freePidOk l = true → freePidOk l' = true := by
  intro l
  induction l with
  | nil => intro l' h; simp [mergeOnceAux] at h
  | cons x l ih =>
    intro l' h hp
    cases l with
    | nil => simp [mergeOnceAux] at h
    | cons y rest =>
      simp only [mergeOnceAux] at h
      split at h
      · cases h
        rw [freePidOk_cons] at hp
        rcases hp with ⟨hx, hp⟩
        rw [freePidOk_cons] at hp
        rw [freePidOk_cons]
        exact ⟨hx, hp.2⟩
      · rcases Option.map_eq_some'.mp h with ⟨l'', hl'', rfl⟩
        rw [freePidOk_cons] at hp
        rw [freePidOk_cons]
        exact ⟨hp.1, ih l'' hl'' hp.2⟩

theorem addrFree_mergeOnce (a : Nat) :
    ∀ l l', mergeOnceAux l = some l' →
      (∀ b ∈ l, b.address = a → b.allocated = false) →
      ∀ b ∈ l', b.address = a → b.allocated = false := by
  intro l
  induction l with
  | nil => intro l' h; simp [mergeOnceAux] at h
  | cons x l ih =>
    intro l' h hp
    cases l with
    | nil => simp [mergeOnceAux] at h
    | cons y rest =>
      simp only [mergeOnceAux] at h
      split at h
      · rename_i hm
        cases h
        rcases (mergeablePair_iff x y).mp hm with ⟨hx, _, _⟩
        intro b hb
        rcases List.mem_cons.mp hb with rfl | hb
        · intro _; exact hx
        · exact hp b (by simp [hb])
      · rcases Option.map_eq_some'.mp h with ⟨l'', hl'', rfl⟩
        intro b hb
        rcases List.mem_cons.mp hb with rfl | hb
        · exact hp b (by simp)
        · exact ih l'' hl'' (fun c hc => hp c (by simp [hc])) b hb

/-! Decompositions of the public operations. -/

theorem allocate_ok (m : MemoryManager) (s : Nat) (pid : Int) (a : Nat)
    (m' : MemoryManager) (h : m.allocate s pid = (Except.ok a, m')) :
    m.isInitialized = true ∧ 0 < s ∧ s ≤ m.freeMemory ∧
    ∃ p b rest, m.memoryBlocks = p ++ b :: rest ∧
      findFreeBlockIdx s m.memoryBlocks = some p.length ∧
      b.allocated = false ∧ s ≤ b.size ∧
      (∀ x ∈ p, ¬(x.allocated = false ∧ s ≤ x.size)) ∧
      a = b.address ∧
      ((64 ≤ b.size - s ∧
         m' = { m with
                  memoryBlocks := p ++ ⟨b.address, s, true, pid⟩ ::
                    ⟨b.address + s, b.size - s, false, -1⟩ :: rest,
                  freeMemory := m.freeMemory - s }) ∨
       (b.size - s < 64 ∧
         m' = { m with
                  memoryBlocks := p ++ ⟨b.address, b.size, true, pid⟩ :: rest,
                  freeMemory := m.freeMemory - b.size })) := by
  unfold MemoryManager.allocate at h
  split at h
  · simp at h
  · split at h
    · simp at h
    · split at h
      · simp at h
      · rename_i hinit hs hfm
        split at h
        · simp at h
        · rename_i blockIndex hfind
          rcases findFreeBlockIdx_some s m.memoryBlocks blockIndex hfind
            with ⟨p, b, rest, hl, hlen, hbfree, hbsize, hp⟩
          subst hlen
          refine ⟨by simpa using hinit, by omega, by omega, p, b, rest, hl, hfind,
            hbfree, hbsize, hp, ?_⟩
          simp only [] at h
          rw [hl, blockAt_append] at h
          by_cases hsplit : s < b.size
          · rw [if_pos hsplit, splitBlock_append] at h
            by_cases hrem : b.size - s < 64
            · rw [if_pos hrem, blockAt_append, markAllocated_append] at h
              rw [Prod.mk.injEq, Except.ok.injEq] at h
              exact ⟨h.1.symm, Or.inr ⟨hrem, h.2.symm⟩⟩
            · rw [if_neg hrem] at h
              have hb2 : blockAt (p ++ { b with size := s } ::
                  (⟨b.address + s, b.size - s, false, -1⟩ : MemoryBlock) :: rest)
                  p.length = { b with size := s } := blockAt_append p _ _
              rw [hb2, markAllocated_append] at h
              rw [Prod.mk.injEq, Except.ok.injEq] at h
              exact ⟨h.1.symm, Or.inl ⟨by omega, h.2.symm⟩⟩
          · have hseq : s = b.size := by omega
            rw [if_neg hsplit, blockAt_append, markAllocated_append] at h
            rw [Prod.mk.injEq, Except.ok.injEq] at h
            subst hseq
            exact ⟨h.1.symm, Or.inr ⟨by omega, h.2.symm⟩⟩

theorem allocate_error (m : MemoryManager) (s : Nat) (pid : Int) (e : AllocError)
    (m' : MemoryManager) (h : m.allocate s pid = (Except.error e, m')) : m' = m := by
  unfold MemoryManager.allocate at h
  split at h
  · exact (Prod.mk.injEq _ _ _ _ ▸ h).2.symm
  · split at h
    · exact (Prod.mk.injEq _ _ _ _ ▸ h).2.symm
    · split at h
      · exact (Prod.mk.injEq _ _ _ _ ▸ h).2.symm
      · split at h
        · exact (Prod.mk.injEq _ _ _ _ ▸ h).2.symm
        · simp at h

theorem free_ok (m : MemoryManager) (addr : Nat) (m' : MemoryManager)
    (h : m.free addr = (Except.ok (), m')) :
    m.isInitialized = true ∧
    ∃ p b rest, m.memoryBlocks = p ++ b :: rest ∧
      findBlockIdxByAddress addr m.memoryBlocks = some p.length ∧
      b.address = addr ∧ b.allocated = true ∧ (∀ x ∈ p, x.address ≠ addr) ∧
      m' = { m with
               memoryBlocks :=
                 mergeBlocks (p ++ ⟨b.address, b.size, false, -1⟩ :: rest),
               freeMemory := m.freeMemory + b.size } := by
  unfold MemoryManager.free at h
  split at h
  · simp at h
  · rename_i hinit
    split at h
    · simp at h
    · rename_i blockIndex hfind
      rcases findBlockIdxByAddress_some addr m.memoryBlocks blockIndex hfind
        with ⟨p, b, rest, hl, hlen, haddr, hp⟩
      subst hlen
      rw [hl, blockAt_append] at h
      simp only [] at h
      split at h
      · simp at h
      · rename_i halloc
        rw [Prod.mk.injEq] at h
        refine ⟨by simpa using hinit, p, b, rest, hl, hfind, haddr,
          by simpa using halloc, hp, ?_⟩
        rw [← h.2, markFree_append]

theorem free_error (m : MemoryManager) (addr : Nat) (e : FreeError)
    (m' : MemoryManager) (h : m.free addr = (Except.error e, m')) : m' = m := by
  unfold MemoryManager.free at h
  split at h
  · exact (Prod.mk.injEq _ _ _ _ ▸ h).2.symm
  · split at h
    · exact (Prod.mk.injEq _ _ _ _ ▸ h).2.symm
    · simp only [] at h
      split at h
      · exact (Prod.mk.injEq _ _ _ _ ▸ h).2.symm
      · simp at h

theorem free_eq_notFound (m : MemoryManager) (addr : Nat)
    (hinit : m.isInitialized = true)
    (hnone : findBlockIdxByAddress addr m.memoryBlocks = none) :
    m.free addr = (Except.error FreeError.notFound, m) := by
  unfold MemoryManager.free
  rw [if_neg (by simp [hinit]), hnone]

theorem free_eq_doubleFree (m : MemoryManager) (addr : Nat) (i : Nat)
    (hinit : m.isInitialized = true)
    (hsome : findBlockIdxByAddress addr m.memoryBlocks = some i)
    (hfree : (blockAt m.memoryBlocks i).allocated = false) :
    m.free addr = (Except.error FreeError.doubleFree, m) := by
  unfold MemoryManager.free
  rw [if_neg (by simp [hinit]), hsome]
  simp only [hfree, if_pos]

theorem freeProcessMemory_eq (m : MemoryManager) (pid : Int)
    (hinit : m.isInitialized = true) :
    m.freeProcessMemory pid =
      (ownedSize pid m.memoryBlocks,
       { m with
           memoryBlocks := mergeBlocks (releaseOwned pid m.memoryBlocks),
           freeMemory := m.freeMemory + ownedSize pid m.memoryBlocks }) := by
  unfold MemoryManager.freeProcessMemory
  rw [if_neg (by simp [hinit])]

/-! Lemmas about the bulk release of an owner's blocks. -/

theorem releaseOwned_cons (pid : Int) (b : MemoryBlock) (l : List MemoryBlock) :
    releaseOwned pid (b :: l) =
      (if b.allocated = true ∧ b.pid = pid then
        { b with allocated := false, pid := -1 } else b) :: releaseOwned pid l := rfl

theorem ownedSize_cons (pid : Int) (b : MemoryBlock) (l : List MemoryBlock) :
    ownedSize pid (b :: l) =
      (if b.allocated = true ∧ b.pid = pid then b.size else 0) + ownedSize pid l := by
  by_cases hb : b.allocated = true ∧ b.pid = pid <;>
    simp [ownedSize, List.filter_cons, hb]

theorem partition_releaseOwned (pid : Int) {a cap : Nat} :
    ∀ l, blocksPartitionFrom a cap l = true →
      blocksPartitionFrom a cap (releaseOwned pid l) = true := by
  intro l
  induction l generalizing a with
  | nil => intro h; exact h
  | cons b l ih =>
    intro h
    rw [partition_cons] at h
    rw [releaseOwned_cons]
    split
    · rw [partition_cons]
      exact ⟨h.1, h.2.1, ih h.2.2⟩
    · rw [partition_cons]
      exact ⟨h.1, h.2.1, ih h.2.2⟩

theorem freeSum_releaseOwned (pid : Int) :
    ∀ l, freeSum (releaseOwned pid l) = freeSum l + ownedSize pid l := by
  intro l
  induction l with
  | nil => rfl
  | cons b l ih =>
    rw [releaseOwned_cons, ownedSize_cons]
    by_cases hb : b.allocated = true ∧ b.pid = pid
    · rw [if_pos hb, if_pos hb, freeSum_cons, freeSum_cons]
      simp only [hb.1]
      simp [ih]
      omega
    · rw [if_neg hb, if_neg hb, freeSum_cons, freeSum_cons, ih]
      omega

theorem freePidOk_releaseOwned (pid : Int) :
    ∀ l, freePidOk l = true → freePidOk (releaseOwned pid l) = true := by
  intro l
  induction l with
  | nil => intro h; exact h
  | cons b l ih =>
    intro h
    rw [freePidOk_cons] at h
    rw [releaseOwned_cons, freePidOk_cons]
    split
    · exact ⟨Or.inr rfl, ih h.2⟩
    · exact ⟨h.1, ih h.2⟩

/-! Transfer lemmas between the no-adjacent-free and no-mergeable chains. -/

theorem noAdjacentFree_noMergeable {l : List MemoryBlock}
    (h : noAdjacentFree l = true) : noMergeable l = true := by
  refine chainPred_imp (fun x y hxy => ?_) l h
  cases hx : x.allocated <;> cases hy : y.allocated <;>
    simp [mergeablePair, hx, hy] at hxy ⊢

theorem noMergeable_contig_noAdjacentFree {l : List MemoryBlock}
    (h1 : noMergeable l = true) (h2 : pairwiseContig l = true) :
    noAdjacentFree l = true := by
  refine chainPred_imp₂ (fun x y hm hc => ?_) l h1 h2
  cases hx : x.allocated <;> cases hy : y.allocated <;>
    simp [mergeablePair, hx, hy, hc] at hm ⊢

theorem noAdjacentFree_mergeBlocks {a cap : Nat} {l : List MemoryBlock}
    (hp : blocksPartitionFrom a cap l = true) :
    noAdjacentFree (mergeBlocks l) = true := by
  have hp' : blocksPartitionFrom a cap (mergeBlocks l) = true :=
    mergeBlocks_inv _ (fun l1 l2 hm hP => partition_mergeOnce l1 l2 hm hP) l hp
  exact noMergeable_contig_noAdjacentFree (noMergeable_mergeBlocks l)
    (partition_contig hp')

theorem noAdjacentFree_replaceLast {p : List MemoryBlock} {b y : MemoryBlock}
    (h : noAdjacentFree (p ++ [b]) = true)
    (hcase : b.allocated = false ∨ y.allocated = true) :
    noAdjacentFree (p ++ [y]) = true := by
  simp only [noAdjacentFree] at h ⊢
  rw [chainPred_append_singleton] at h ⊢
  refine ⟨h.1, fun u hu => ?_⟩
  rcases hcase with hb | hy
  · have := h.2 u hu
    simp only [hb, Bool.or_false] at this
    simp [this]
  · simp [hy]

theorem noMergeable_prefix {p : List MemoryBlock} {b x : MemoryBlock}
    (h : noAdjacentFree (p ++ [b]) = true) (hb : b.allocated = false) :
    noMergeable (p ++ [x]) = true := by
  simp only [noAdjacentFree] at h
  rw [chainPred_append_singleton] at h
  simp only [noMergeable]
  rw [chainPred_append_singleton]
  constructor
  · refine chainPred_imp (fun u v huv => ?_) p h.1
    cases hu : u.allocated <;> cases hv : v.allocated <;>
      simp [mergeablePair, hu, hv] at huv ⊢
  · intro u hu
    have := h.2 u hu
    simp only [hb, Bool.or_false] at this
    simp [mergeablePair, this]

theorem noAdjacentFree_allocNoSplit {p rest : List MemoryBlock}
    {b y : MemoryBlock} (h : noAdjacentFree (p ++ b :: rest) = true)
    (hy : y.allocated = true) : noAdjacentFree (p ++ y :: rest) = true := by
  simp only [noAdjacentFree] at h ⊢
  rw [chainPred_append_iff] at h ⊢
  refine ⟨noAdjacentFree_replaceLast h.1 (Or.inr hy), ?_⟩
  cases rest with
  | nil => simp [chainPred]
  | cons c rest' =>
    have h2 := h.2
    simp only [chainPred, Bool.and_eq_true] at h2 ⊢
    exact ⟨by simp [hy], h2.2⟩

theorem noAdjacentFree_allocSplit {p rest : List MemoryBlock}
    {b y nb : MemoryBlock} (h : noAdjacentFree (p ++ b :: rest) = true)
    (hb : b.allocated = false) (hy : y.allocated = true)
    (_hnb : nb.allocated = false) :
    noAdjacentFree (p ++ y :: nb :: rest) = true := by
  simp only [noAdjacentFree] at h ⊢
  rw [chainPred_append_iff] at h ⊢
  refine ⟨noAdjacentFree_replaceLast h.1 (Or.inr hy), ?_⟩
  cases rest with
  | nil => simp [chainPred, hy]
  | cons c rest' =>
    have h2 := h.2
    simp only [chainPred, Bool.and_eq_true] at h2 ⊢
    have hc : c.allocated = true := by
      rcases Bool.or_eq_true _ _ |>.mp h2.1 with hfalse | hc
      · rw [hb] at hfalse
        cases hfalse
      · exact hc
    exact ⟨by simp [hy], by simp [hc], h2.2⟩

/-! Preservation of the well-formedness invariant by every public operation. -/

theorem freePidOk_append (l₁ l₂ : List MemoryBlock) :
    freePidOk (l₁ ++ l₂) = true ↔ freePidOk l₁ = true ∧ freePidOk l₂ = true := by
  simp [freePidOk, List.all_append]

theorem wf_initializeManager (m : MemoryManager) (h0 : 0 < m.totalMemory) :
    WF (initializeManager m) := by
  refine ⟨h0, rfl, ?_, rfl, ?_, rfl⟩
  · simp [initializeManager, blocksPartitionFrom, h0]
  · simp [initializeManager, freeSum]

theorem wf_allocate (m : MemoryManager) (s : Nat) (pid : Int) (a : Nat)
    (m' : MemoryManager) (hwf : WF m) (h : m.allocate s pid = (Except.ok a, m')) :
    WF m' := by
  obtain ⟨htot, hinit, hpart, hadj, hacc, hpid⟩ := hwf
  obtain ⟨_, hs, hsfm, p, b, rest, hl, hfind, hbfree, hbsize, hp, ha, hcase⟩ :=
    allocate_ok m s pid a m' h
  rw [hl] at hpart hadj hacc hpid
  rw [partition_append] at hpart
  obtain ⟨hseg, hrest⟩ := hpart
  rw [partition_cons] at hrest
  obtain ⟨hb1, hb2, hbp⟩ := hrest
  rcases hcase with ⟨hrem, rfl⟩ | ⟨hrem, rfl⟩
  · refine ⟨htot, hinit, ?_, ?_, ?_, ?_⟩
    · show blocksPartitionFrom 0 m.totalMemory
        (p ++ (⟨b.address, s, true, pid⟩ : MemoryBlock) ::
          (⟨b.address + s, b.size - s, false, -1⟩ : MemoryBlock) :: rest) = true
      rw [partition_append]
      refine ⟨hseg, ?_⟩
      rw [partition_cons]
      refine ⟨hb1, hs, ?_⟩
      rw [partition_cons]
      simp only []
      refine ⟨by omega, by omega, ?_⟩
      have heq : 0 + sizeSum p + s + (b.size - s) = 0 + sizeSum p + b.size := by
        omega
      rw [heq]
      exact hbp
    · exact noAdjacentFree_allocSplit hadj hbfree rfl rfl
    · show m.freeMemory - s = freeSum
        (p ++ (⟨b.address, s, true, pid⟩ : MemoryBlock) ::
          (⟨b.address + s, b.size - s, false, -1⟩ : MemoryBlock) :: rest)
      rw [freeSum_append, freeSum_cons, if_pos hbfree] at hacc
      rw [freeSum_append, freeSum_cons, freeSum_cons,
        if_neg (show ¬((⟨b.address, s, true, pid⟩ : MemoryBlock).allocated = false)
          by simp),
        if_pos (show (⟨b.address + s, b.size - s, false, -1⟩ :
          MemoryBlock).allocated = false from rfl)]
      show m.freeMemory - s = freeSum p + (0 + (b.size - s + freeSum rest))
      omega
    · show freePidOk
        (p ++ (⟨b.address, s, true, pid⟩ : MemoryBlock) ::
          (⟨b.address + s, b.size - s, false, -1⟩ : MemoryBlock) :: rest) = true
      rw [freePidOk_append] at hpid
      rw [freePidOk_append, freePidOk_cons, freePidOk_cons]
      exact ⟨hpid.1, Or.inl rfl, Or.inr rfl, (freePidOk_cons b rest).mp hpid.2 |>.2⟩
  · refine ⟨htot, hinit, ?_, ?_, ?_, ?_⟩
    · show blocksPartitionFrom 0 m.totalMemory
        (p ++ (⟨b.address, b.size, true, pid⟩ : MemoryBlock) :: rest) = true
      rw [partition_append]
      refine ⟨hseg, ?_⟩
      rw [partition_cons]
      exact ⟨hb1, hb2, hbp⟩
    · exact noAdjacentFree_allocNoSplit hadj rfl
    · show m.freeMemory - b.size = freeSum
        (p ++ (⟨b.address, b.size, true, pid⟩ : MemoryBlock) :: rest)
      rw [freeSum_append, freeSum_cons, if_pos hbfree] at hacc
      rw [freeSum_append, freeSum_cons,
        if_neg (show ¬((⟨b.address, b.size, true, pid⟩ :
          MemoryBlock).allocated = false) by simp)]
      show m.freeMemory - b.size = freeSum p + (0 + freeSum rest)
      omega
    · show freePidOk
        (p ++ (⟨b.address, b.size, true, pid⟩ : MemoryBlock) :: rest) = true
      rw [freePidOk_append] at hpid
      rw [freePidOk_append, freePidOk_cons]
      exact ⟨hpid.1, Or.inl rfl, (freePidOk_cons b rest).mp hpid.2 |>.2⟩

theorem wf_free (m : MemoryManager) (addr : Nat) (m' : MemoryManager)
    (hwf : WF m) (h : m.free addr = (Except.ok (), m')) : WF m' := by
  obtain ⟨htot, hinit, hpart, hadj, hacc, hpid⟩ := hwf
  obtain ⟨_, p, b, rest, hl, hfind, haddr, halloc, hp, rfl⟩ := free_ok m addr m' h
  rw [hl] at hpart hadj hacc hpid
  have hpm : blocksPartitionFrom 0 m.totalMemory
      (p ++ (⟨b.address, b.size, false, -1⟩ : MemoryBlock) :: rest) = true := by
    rw [partition_append] at hpart ⊢
    refine ⟨hpart.1, ?_⟩
    have := hpart.2
    rw [partition_cons] at this ⊢
    exact ⟨this.1, this.2.1, this.2.2⟩
  refine ⟨htot, hinit, ?_, ?_, ?_, ?_⟩
  · exact mergeBlocks_inv _ (fun l1 l2 hm hP => partition_mergeOnce l1 l2 hm hP)
      _ hpm
  · exact noAdjacentFree_mergeBlocks hpm
  · show m.freeMemory + b.size = freeSum (mergeBlocks
      (p ++ (⟨b.address, b.size, false, -1⟩ : MemoryBlock) :: rest))
    have hms : freeSum (mergeBlocks
        (p ++ (⟨b.address, b.size, false, -1⟩ : MemoryBlock) :: rest)) =
        freeSum (p ++ (⟨b.address, b.size, false, -1⟩ : MemoryBlock) :: rest) :=
      mergeBlocks_inv
        (fun l2 => freeSum l2 =
          freeSum (p ++ (⟨b.address, b.size, false, -1⟩ : MemoryBlock) :: rest))
        (fun l1 l2 hm hP => (freeSum_mergeOnce l1 l2 hm).trans hP) _ rfl
    rw [hms, freeSum_append, freeSum_cons,
      if_pos (show (⟨b.address, b.size, false, -1⟩ :
        MemoryBlock).allocated = false from rfl)]
    rw [freeSum_append, freeSum_cons, if_neg (by simp [halloc])] at hacc
    show m.freeMemory + b.size = freeSum p + (b.size + freeSum rest)
    omega
  · refine mergeBlocks_inv (fun l2 => freePidOk l2 = true)
      (fun l1 l2 hm hP => freePidOk_mergeOnce l1 l2 hm hP) _ ?_
    rw [freePidOk_append] at hpid
    rw [freePidOk_append, freePidOk_cons]
    exact ⟨hpid.1, Or.inr rfl, (freePidOk_cons b rest).mp hpid.2 |>.2⟩

theorem wf_freeProcess (m : MemoryManager) (pid : Int) (hwf : WF m) :
    WF (m.freeProcessMemory pid).2 := by
  obtain ⟨htot, hinit, hpart, hadj, hacc, hpid⟩ := hwf
  rw [freeProcessMemory_eq m pid hinit]
  have hpm : blocksPartitionFrom 0 m.totalMemory
      (releaseOwned pid m.memoryBlocks) = true :=
    partition_releaseOwned pid _ hpart
  refine ⟨htot, hinit, ?_, ?_, ?_, ?_⟩
  · exact mergeBlocks_inv _ (fun l1 l2 hm hP => partition_mergeOnce l1 l2 hm hP)
      _ hpm
  · exact noAdjacentFree_mergeBlocks hpm
  · show m.freeMemory + ownedSize pid m.memoryBlocks =
      freeSum (mergeBlocks (releaseOwned pid m.memoryBlocks))
    have hms : freeSum (mergeBlocks (releaseOwned pid m.memoryBlocks)) =
        freeSum (releaseOwned pid m.memoryBlocks) :=
      mergeBlocks_inv
        (fun l2 => freeSum l2 = freeSum (releaseOwned pid m.memoryBlocks))
        (fun l1 l2 hm hP => (freeSum_mergeOnce l1 l2 hm).trans hP) _ rfl
    rw [hms, freeSum_releaseOwned]
    omega
  · exact mergeBlocks_inv (fun l2 => freePidOk l2 = true)
      (fun l1 l2 hm hP => freePidOk_mergeOnce l1 l2 hm hP) _
      (freePidOk_releaseOwned pid _ hpid)

theorem wf_applyOp (m : MemoryManager) (op : Op) (hwf : WF m) :
    WF (m.applyOp op) := by
  cases op with
  | init => exact wf_initializeManager m hwf.1
  | alloc s p =>
    show WF (m.allocate s p).2
    rcases hr : m.allocate s p with ⟨r, m'⟩
    cases r with
    | ok a => exact wf_allocate m s p a m' hwf hr
    | error e =>
      have := allocate_error m s p e m' hr
      subst this
      exact hwf
  | free a =>
    show WF (m.free a).2
    rcases hr : m.free a with ⟨r, m'⟩
    cases r with
    | ok u =>
      cases u
      exact wf_free m a m' hwf hr
    | error e =>
      have := free_error m a e m' hr
      subst this
      exact hwf
  | freeOwner p => exact wf_freeProcess m p hwf

theorem wf_run (m : MemoryManager) (ops : List Op) (hwf : WF m) :
    WF (m.run ops) := by
  induction ops generalizing m with
  | nil => exact hwf
  | cons op ops ih => exact ih (m.applyOp op) (wf_applyOp m op hwf)

theorem wf_reachable (cap : Nat) (h0 : 0 < cap) (ops : List Op) :
    WF ((initializeManager (mkManager cap)).run ops) :=
  wf_run _ _ (wf_initializeManager _ h0)

/-! The capacity field is never changed by any operation. -/

theorem totalMemory_allocate (m : MemoryManager) (s : Nat) (pid : Int) :
    (m.allocate s pid).2.totalMemory = m.totalMemory := by
  unfold MemoryManager.allocate
  split
  · rfl
  · split
    · rfl
    · split
      · rfl
      · split
        · rfl
        · rfl

theorem totalMemory_free (m : MemoryManager) (addr : Nat) :
    (m.free addr).2.totalMemory = m.totalMemory := by
  unfold MemoryManager.free
  split
  · rfl
  · split
    · rfl
    · simp only []
      split
      · rfl
      · rfl

theorem totalMemory_freeProcess (m : MemoryManager) (pid : Int) :
    (m.freeProcessMemory pid).2.totalMemory = m.totalMemory := by
  unfold MemoryManager.freeProcessMemory
  split
  · rfl
  · rfl

theorem totalMemory_applyOp (m : MemoryManager) (op : Op) :
    (m.applyOp op).totalMemory = m.totalMemory := by
  cases op with
  | init => rfl
  | alloc s p => exact totalMemory_allocate m s p
  | free a => exact totalMemory_free m a
  | freeOwner p => exact totalMemory_freeProcess m p

theorem totalMemory_run (m : MemoryManager) (ops : List Op) :
    (m.run ops).totalMemory = m.totalMemory := by
  induction ops generalizing m with
  | nil => rfl
  | cons op ops ih => exact (ih (m.applyOp op)).trans (totalMemory_applyOp m op)

/-! Further indexing helpers. -/

theorem blockAt_append_lt (p X : List MemoryBlock) (j : Nat)
    (hj : j < p.length) :
    blockAt (p ++ X) j = blockAt p j ∧ blockAt p j ∈ p := by
  constructor
  · simp only [blockAt, List.get?_eq_getElem?]
    rw [List.getElem?_append_left hj]
  · have hg : p.get? j = some (p.get ⟨j, hj⟩) := List.get?_eq_get hj
    simp only [blockAt, hg, Option.getD_some]
    exact List.get_mem p j hj

theorem blockAt_append_right (p X : List MemoryBlock) (k : Nat) :
    blockAt (p ++ X) (p.length + k) = blockAt X k := by
  induction p with
  | nil =>
    show blockAt X (0 + k) = blockAt X k
    rw [Nat.zero_add]
  | cons a p ih =>
    have hidx : (a :: p).length + k = (p.length + k) + 1 := by
      simp
      omega
    rw [List.cons_append, hidx]
    simpa [blockAt, List.get?] using ih

theorem mergeOnceAux_append (p : List MemoryBlock) (x : MemoryBlock)
    (rest : List MemoryBlock) (hnm : noMergeable (p ++ [x]) = true) :
    mergeOnceAux (p ++ x :: rest) = (mergeOnceAux (x :: rest)).map (p ++ ·) := by
  induction p with
  | nil =>
    cases h : mergeOnceAux (x :: rest) <;> simp [h]
  | cons a p ih =>
    cases p with
    | nil =>
      simp only [noMergeable, chainPred, Bool.and_eq_true, List.nil_append,
        List.cons_append] at hnm
      have hmax : mergeablePair a x = false := by simpa using hnm.1
      show mergeOnceAux (a :: x :: rest) = _
      rw [show mergeOnceAux (a :: x :: rest) =
        if mergeablePair a x then some ({ a with size := a.size + x.size } :: rest)
        else (mergeOnceAux (x :: rest)).map (a :: ·) from rfl]
      rw [if_neg (by simp [hmax])]
      cases h : mergeOnceAux (x :: rest) <;> simp [h]
    | cons a2 p2 =>
      simp only [noMergeable, chainPred, Bool.and_eq_true, List.cons_append] at hnm
      have hmax : mergeablePair a a2 = false := by simpa using hnm.1
      have hnm2 : noMergeable ((a2 :: p2) ++ [x]) = true := by
        simp only [noMergeable, List.cons_append]
        exact hnm.2
      have ihs := ih hnm2
      show mergeOnceAux (a :: a2 :: (p2 ++ x :: rest)) = _
      rw [show mergeOnceAux (a :: a2 :: (p2 ++ x :: rest)) =
        if mergeablePair a a2 then
          some ({ a with size := a.size + a2.size } :: (p2 ++ x :: rest))
        else (mergeOnceAux (a2 :: (p2 ++ x :: rest))).map (a :: ·) from rfl]
      rw [if_neg (by simp [hmax])]
      rw [show a2 :: (p2 ++ x :: rest) = (a2 :: p2) ++ x :: rest from rfl, ihs]
      cases h : mergeOnceAux (x :: rest) <;> simp [h]

theorem mergeBlocks_once_then_none {l l' : List MemoryBlock}
    (h1 : mergeOnceAux l = some l') (h2 : mergeOnceAux l' = none) :
    mergeBlocks l = l' := by
  unfold mergeBlocks
  rw [mergeOnceAux_length l l' h1]
  simp only [mergeBlocksFuel, h1]
  exact mergeBlocksFuel_of_none h2 _

theorem free_eq_ok (m : MemoryManager) (addr : Nat) (i : Nat)
    (hinit : m.isInitialized = true)
    (hfind : findBlockIdxByAddress addr m.memoryBlocks = some i)
    (halloc : (blockAt m.memoryBlocks i).allocated = true) :
    m.free addr = (Except.ok (),
      { m with
          memoryBlocks := mergeBlocks (markFree m.memoryBlocks i),
          freeMemory := m.freeMemory + (blockAt m.memoryBlocks i).size }) := by
  unfold MemoryManager.free
  rw [if_neg (by simp [hinit]), hfind]
  simp only []
  rw [if_neg (by simp [halloc])]

/-! Closed-form equations for the failure branches of allocate, and the
command handler's failure reply. -/

theorem allocate_eq_invalidSize (m : MemoryManager) (s : Nat) (pid : Int)
    (hinit : m.isInitialized = true) (hs : s = 0) :
    m.allocate s pid = (Except.error AllocError.invalidSize, m) := by
  unfold MemoryManager.allocate
  rw [if_neg (by simp [hinit]), if_pos hs]

theorem allocate_eq_outOfMemory (m : MemoryManager) (s : Nat) (pid : Int)
    (hinit : m.isInitialized = true) (hs : ¬s = 0) (hfm : m.freeMemory < s) :
    m.allocate s pid = (Except.error AllocError.outOfMemory, m) := by
  unfold MemoryManager.allocate
  rw [if_neg (by simp [hinit]), if_neg hs, if_pos hfm]

theorem allocate_eq_noSuitable (m : MemoryManager) (s : Nat) (pid : Int)
    (hinit : m.isInitialized = true) (hs : ¬s = 0) (hfm : ¬m.freeMemory < s)
    (hfind : findFreeBlockIdx s m.memoryBlocks = none) :
    m.allocate s pid = (Except.error AllocError.noSuitableBlock, m) := by
  unfold MemoryManager.allocate
  rw [if_neg (by simp [hinit]), if_neg hs, if_neg hfm, hfind]

theorem allocate_fst_ok (m : MemoryManager) (s : Nat) (pid : Int) (i : Nat)
    (hinit : m.isInitialized = true) (hs : ¬s = 0) (hfm : ¬m.freeMemory < s)
    (hfind : findFreeBlockIdx s m.memoryBlocks = some i) :
    ∃ a, (m.allocate s pid).1 = Except.ok a := by
  unfold MemoryManager.allocate
  rw [if_neg (by simp [hinit]), if_neg hs, if_neg hfm, hfind]
  exact ⟨_, rfl⟩

theorem memAllocReply_error (m : MemoryManager) (s : Nat) (pid : Int)
    (e : AllocError) (h : (m.allocate s pid).1 = Except.error e) :
    (memAllocReply m s pid).1 = "Failed to allocate memory" := by
  unfold memAllocReply
  simp only []
  rw [h]
  rw [if_neg (by simp [allocReturnValue])]

/-! Claim theorems. -/

/-- C1: starting from an initialized arena of positive capacity, after any
sequence of public operations the block list (which is maintained sorted by
address, as the strict sortedness conjunct shows) forms a contiguous,
non-overlapping partition of the range from 0 to the capacity: the first block
starts at 0, each block starts where the previous one ends, the last block ends
at the capacity, and every block has positive size — all of which
`blocksPartitionFrom 0 cap` states. -/
theorem c1_partition_invariant (cap : Nat) (ops : List Op) (h0 : 0 < cap) :
    blocksPartitionFrom 0 cap
      ((initializeManager (mkManager cap)).run ops).memoryBlocks = true ∧
    addrSorted ((initializeManager (mkManager cap)).run ops).memoryBlocks
      = true := by
  have hwf := wf_reachable cap h0 ops
  have htot : ((initializeManager (mkManager cap)).run ops).totalMemory = cap :=
    totalMemory_run _ ops
  have hpart := hwf.2.2.1
  rw [htot] at hpart
  exact ⟨hpart, partition_sorted hpart⟩

/-- C1 witness: the partition invariant evaluated on a concrete run. -/
theorem c1_partition_invariant_witness :
    0 < 1024 ∧
    (blocksPartitionFrom 0 1024
      ((initializeManager (mkManager 1024)).run
        [Op.alloc 100 1, Op.alloc 200 2, Op.free 0]).memoryBlocks = true ∧
    addrSorted ((initializeManager (mkManager 1024)).run
        [Op.alloc 100 1, Op.alloc 200 2, Op.free 0]).memoryBlocks = true) :=
  ⟨by decide, c1_partition_invariant 1024 [Op.alloc 100 1, Op.alloc 200 2,
    Op.free 0] (by decide)⟩

/-- C5: after every `free` call and after every `free_by_owner` call returns —
here, after any operation sequence ending in such a call — no two blocks
adjacent in address order are both free: the coalescing loop runs to a fixed
point, so even a run of three or more newly adjacent free blocks is fully
merged. -/
theorem c5_no_adjacent_free (cap : Nat) (ops : List Op) (addr : Nat)
    (pid : Int) (h0 : 0 < cap) :
    noAdjacentFree ((initializeManager (mkManager cap)).run
      (ops ++ [Op.free addr])).memoryBlocks = true ∧
    noAdjacentFree ((initializeManager (mkManager cap)).run
      (ops ++ [Op.freeOwner pid])).memoryBlocks = true :=
  ⟨(wf_reachable cap h0 (ops ++ [Op.free addr])).2.2.2.1,
   (wf_reachable cap h0 (ops ++ [Op.freeOwner pid])).2.2.2.1⟩

/-- C5 witness: a free that merges three adjacent free blocks, evaluated. -/
theorem c5_no_adjacent_free_witness :
    0 < 1024 ∧
    (noAdjacentFree ((initializeManager (mkManager 1024)).run
      ([Op.alloc 100 1, Op.alloc 100 2, Op.alloc 100 3, Op.free 0, Op.free 200]
        ++ [Op.free 100])).memoryBlocks = true ∧
    noAdjacentFree ((initializeManager (mkManager 1024)).run
      ([Op.alloc 100 1, Op.alloc 100 2, Op.alloc 100 3, Op.free 0, Op.free 200]
        ++ [Op.freeOwner 2])).memoryBlocks = true) :=
  ⟨by decide, c5_no_adjacent_free 1024
    [Op.alloc 100 1, Op.alloc 100 2, Op.alloc 100 3, Op.free 0, Op.free 200]
    100 2 (by decide)⟩

/-- C6: after every public operation on an initialized arena, the reported
free-byte total equals the sum of sizes of the free blocks, the reported
used-byte total equals capacity minus that free total, and free plus used
equals capacity. -/
theorem c6_accounting (cap : Nat) (ops : List Op) (h0 : 0 < cap) :
    ((initializeManager (mkManager cap)).run ops).getMemoryStats.freeMemory =
      freeSum ((initializeManager (mkManager cap)).run ops).memoryBlocks ∧
    ((initializeManager (mkManager cap)).run ops).getMemoryStats.usedMemory =
      cap - freeSum ((initializeManager (mkManager cap)).run ops).memoryBlocks ∧
    ((initializeManager (mkManager cap)).run ops).getMemoryStats.freeMemory +
      ((initializeManager (mkManager cap)).run ops).getMemoryStats.usedMemory =
      cap := by
  have hwf := wf_reachable cap h0 ops
  have htot : ((initializeManager (mkManager cap)).run ops).totalMemory = cap :=
    totalMemory_run _ ops
  have hpart := hwf.2.2.1
  have hacc := hwf.2.2.2.2.1
  rw [htot] at hpart
  have hsz : 0 + sizeSum ((initializeManager (mkManager cap)).run
      ops).memoryBlocks = cap := partition_sizeSum hpart
  have hle : freeSum ((initializeManager (mkManager cap)).run
        ops).memoryBlocks ≤
      sizeSum ((initializeManager (mkManager cap)).run ops).memoryBlocks :=
    freeSum_le_sizeSum _
  refine ⟨hacc, ?_, ?_⟩
  · show ((initializeManager (mkManager cap)).run ops).totalMemory -
      ((initializeManager (mkManager cap)).run ops).freeMemory = _
    omega
  · show ((initializeManager (mkManager cap)).run ops).freeMemory +
      (((initializeManager (mkManager cap)).run ops).totalMemory -
        ((initializeManager (mkManager cap)).run ops).freeMemory) = cap
    omega

/-- C6 witness: the accounting identities evaluated on a concrete run. -/
theorem c6_accounting_witness :
    0 < 1024 ∧
    (((initializeManager (mkManager 1024)).run
        [Op.alloc 100 1, Op.free 0]).getMemoryStats.freeMemory =
      freeSum ((initializeManager (mkManager 1024)).run
        [Op.alloc 100 1, Op.free 0]).memoryBlocks ∧
    ((initializeManager (mkManager 1024)).run
        [Op.alloc 100 1, Op.free 0]).getMemoryStats.usedMemory =
      1024 - freeSum ((initializeManager (mkManager 1024)).run
        [Op.alloc 100 1, Op.free 0]).memoryBlocks ∧
    ((initializeManager (mkManager 1024)).run
        [Op.alloc 100 1, Op.free 0]).getMemoryStats.freeMemory +
      ((initializeManager (mkManager 1024)).run
        [Op.alloc 100 1, Op.free 0]).getMemoryStats.usedMemory = 1024) :=
  ⟨by decide, c6_accounting 1024 [Op.alloc 100 1, Op.free 0] (by decide)⟩

/-- C9: the concrete scenario on a fresh 1024-byte arena.  `allocate(100,1)`
returns 0 and `allocate(200,2)` returns 100; `free(0)` succeeds and leaves the
block at address 0 free with size 100, unmerged (three blocks remain, the
neighbour at 100 being allocated); `free(100)` succeeds, its first coalescing
step merges the freed block into the block at 0 giving a free block of size 300
at address 0, and coalescing then runs on to a fixed point, so that once all
blocks are freed the stats report 1024 free bytes and a single block. -/
theorem c9_scenario :
    ((initializeManager (mkManager 1024)).allocate 100 1).1 = Except.ok 0 ∧
    (((initializeManager (mkManager 1024)).allocate 100 1).2.allocate
      200 2).1 = Except.ok 100 ∧
    ((((initializeManager (mkManager 1024)).allocate 100 1).2.allocate
      200 2).2.free 0).1 = Except.ok () ∧
    blockAt ((((initializeManager (mkManager 1024)).allocate 100 1).2.allocate
      200 2).2.free 0).2.memoryBlocks 0 = ⟨0, 100, false, -1⟩ ∧
    ((((initializeManager (mkManager 1024)).allocate 100 1).2.allocate
      200 2).2.free 0).2.memoryBlocks.length = 3 ∧
    mergeOnceAux (markFree ((((initializeManager (mkManager 1024)).allocate
      100 1).2.allocate 200 2).2.free 0).2.memoryBlocks 1) =
      some [⟨0, 300, false, -1⟩, ⟨300, 724, false, -1⟩] ∧
    (((((initializeManager (mkManager 1024)).allocate 100 1).2.allocate
      200 2).2.free 0).2.free 100).1 = Except.ok () ∧
    (((((initializeManager (mkManager 1024)).allocate 100 1).2.allocate
      200 2).2.free 0).2.free 100).2.memoryBlocks = [⟨0, 1024, false, -1⟩] ∧
    (((((initializeManager (mkManager 1024)).allocate 100 1).2.allocate
      200 2).2.free 0).2.free 100).2.getMemoryStats.freeMemory = 1024 ∧
    (((((initializeManager (mkManager 1024)).allocate 100 1).2.allocate
      200 2).2.free 0).2.free 100).2.getMemoryStats.blockCount = 1 := by
  decide

/-- C10 (implicit): on a freshly initialized arena any first allocation of a
positive size within capacity succeeds, places the block at address 0 and
returns 0 — the same value `allocate` returns on every failure path — so the
successful allocation is indistinguishable from a failure at the public
interface, and the `mem-alloc` command handler reports it as a failure. -/
theorem c10_zero_address (cap s : Nat) (pid : Int) (h0 : 0 < s)
    (hcap : s ≤ cap) :
    ((initializeManager (mkManager cap)).allocate s pid).1 = Except.ok 0 ∧
    allocReturnValue ((initializeManager (mkManager cap)).allocate s pid).1
      = 0 ∧
    (blockAt ((initializeManager (mkManager cap)).allocate
      s pid).2.memoryBlocks 0).address = 0 ∧
    (blockAt ((initializeManager (mkManager cap)).allocate
      s pid).2.memoryBlocks 0).allocated = true ∧
    (blockAt ((initializeManager (mkManager cap)).allocate
      s pid).2.memoryBlocks 0).pid = pid ∧
    (∀ (m : MemoryManager) (t : Nat) (q : Int) (e : AllocError),
      (m.allocate t q).1 = Except.error e →
      allocReturnValue (m.allocate t q).1 = 0) ∧
    (memAllocReply (initializeManager (mkManager cap)) s pid).1 =
      "Failed to allocate memory" := by
  have hfind : findFreeBlockIdx s
      (initializeManager (mkManager cap)).memoryBlocks = some 0 := by
    show findFreeBlockIdx s [⟨0, cap, false, -1⟩] = some 0
    simp [findFreeBlockIdx, hcap]
  have hkey : (initializeManager (mkManager cap)).allocate s pid =
      (Except.ok 0,
       { initializeManager (mkManager cap) with
           memoryBlocks := markAllocated pid
             (if s < cap then splitBlock s [⟨0, cap, false, -1⟩] 0
              else [⟨0, cap, false, -1⟩]) 0,
           freeMemory := cap -
             (blockAt (if s < cap then splitBlock s [⟨0, cap, false, -1⟩] 0
              else [⟨0, cap, false, -1⟩]) 0).size }) := by
    unfold MemoryManager.allocate
    rw [if_neg (by simp [initializeManager]), if_neg (by omega),
      if_neg (show ¬((initializeManager (mkManager cap)).freeMemory < s) by
        show ¬(cap < s)
        omega),
      hfind]
    simp only []
    rw [show (initializeManager (mkManager cap)).memoryBlocks =
      [(⟨0, cap, false, -1⟩ : MemoryBlock)] from rfl]
    by_cases hsplit : s < cap
    · rw [if_pos (show s <
          (blockAt [(⟨0, cap, false, -1⟩ : MemoryBlock)] 0).size from hsplit),
        if_pos hsplit]
      by_cases hrem : cap - s < 64
      · rw [show splitBlock s [(⟨0, cap, false, -1⟩ : MemoryBlock)] 0 =
          [⟨0, cap, false, -1⟩] by simp [splitBlock, hrem]]
        rfl
      · rw [show splitBlock s [(⟨0, cap, false, -1⟩ : MemoryBlock)] 0 =
          [⟨0, s, false, -1⟩, ⟨0 + s, cap - s, false, -1⟩] by
            simp [splitBlock, hrem]]
        rfl
    · rw [if_neg (show ¬(s <
          (blockAt [(⟨0, cap, false, -1⟩ : MemoryBlock)] 0).size) from hsplit),
        if_neg hsplit]
      rfl
  have hretfail : ∀ (m : MemoryManager) (t : Nat) (q : Int) (e : AllocError),
      (m.allocate t q).1 = Except.error e →
      allocReturnValue (m.allocate t q).1 = 0 := by
    intro m t q e he
    rw [he]
    rfl
  refine ⟨by rw [hkey], by rw [hkey]; rfl, ?_, ?_, ?_, hretfail, ?_⟩
  · rw [hkey]
    by_cases hsplit : s < cap
    · rw [if_pos hsplit]
      by_cases hrem : cap - s < 64
      · rw [show splitBlock s [(⟨0, cap, false, -1⟩ : MemoryBlock)] 0 =
          [⟨0, cap, false, -1⟩] by simp [splitBlock, hrem]]
        rfl
      · rw [show splitBlock s [(⟨0, cap, false, -1⟩ : MemoryBlock)] 0 =
          [⟨0, s, false, -1⟩, ⟨0 + s, cap - s, false, -1⟩] by
            simp [splitBlock, hrem]]
        rfl
    · rw [if_neg hsplit]
      rfl
  · rw [hkey]
    by_cases hsplit : s < cap
    · rw [if_pos hsplit]
      by_cases hrem : cap - s < 64
      · rw [show splitBlock s [(⟨0, cap, false, -1⟩ : MemoryBlock)] 0 =
          [⟨0, cap, false, -1⟩] by simp [splitBlock, hrem]]
        rfl
      · rw [show splitBlock s [(⟨0, cap, false, -1⟩ : MemoryBlock)] 0 =
          [⟨0, s, false, -1⟩, ⟨0 + s, cap - s, false, -1⟩] by
            simp [splitBlock, hrem]]
        rfl
    · rw [if_neg hsplit]
      rfl
  · rw [hkey]
    by_cases hsplit : s < cap
    · rw [if_pos hsplit]
      by_cases hrem : cap - s < 64
      · rw [show splitBlock s [(⟨0, cap, false, -1⟩ : MemoryBlock)] 0 =
          [⟨0, cap, false, -1⟩] by simp [splitBlock, hrem]]
        rfl
      · rw [show splitBlock s [(⟨0, cap, false, -1⟩ : MemoryBlock)] 0 =
          [⟨0, s, false, -1⟩, ⟨0 + s, cap - s, false, -1⟩] by
            simp [splitBlock, hrem]]
        rfl
    · rw [if_neg hsplit]
      rfl
  · unfold memAllocReply
    simp only [hkey]
    rw [if_neg (by simp [allocReturnValue])]

/-- C10 witness: first allocation on a fresh 1024-byte arena, evaluated. -/
theorem c10_zero_address_witness :
    0 < 100 ∧ 100 ≤ 1024 ∧
    (((initializeManager (mkManager 1024)).allocate 100 7).1 = Except.ok 0 ∧
    allocReturnValue ((initializeManager (mkManager 1024)).allocate 100 7).1
      = 0 ∧
    (blockAt ((initializeManager (mkManager 1024)).allocate
      100 7).2.memoryBlocks 0).address = 0 ∧
    (blockAt ((initializeManager (mkManager 1024)).allocate
      100 7).2.memoryBlocks 0).allocated = true ∧
    (blockAt ((initializeManager (mkManager 1024)).allocate
      100 7).2.memoryBlocks 0).pid = 7 ∧
    (∀ (m : MemoryManager) (t : Nat) (q : Int) (e : AllocError),
      (m.allocate t q).1 = Except.error e →
      allocReturnValue (m.allocate t q).1 = 0) ∧
    (memAllocReply (initializeManager (mkManager 1024)) 100 7).1 =
      "Failed to allocate memory") :=
  ⟨by decide, by decide, c10_zero_address 1024 100 7 (by decide) (by decide)⟩

/-- C2: whenever `allocate(size, owner)` succeeds on a well-formed arena, the
selected block is the one found by the first-fit scan: it is free, large
enough, every block at a smaller index (equivalently, smaller address, since
the list is address-sorted) is allocated or too small, it has the lowest
address among all qualifying free blocks, and the value returned to the caller
is that block's address. -/
theorem c2_first_fit (m : MemoryManager) (s : Nat) (pid : Int) (a : Nat)
    (m' : MemoryManager) (hwf : WF m)
    (h : m.allocate s pid = (Except.ok a, m')) :
    ∃ i, findFreeBlockIdx s m.memoryBlocks = some i ∧
      (blockAt m.memoryBlocks i).allocated = false ∧
      s ≤ (blockAt m.memoryBlocks i).size ∧
      a = (blockAt m.memoryBlocks i).address ∧
      (∀ j, j < i → (blockAt m.memoryBlocks j).allocated = true ∨
        (blockAt m.memoryBlocks j).size < s) ∧
      ∀ b2 ∈ m.memoryBlocks, b2.allocated = false → s ≤ b2.size →
        (blockAt m.memoryBlocks i).address ≤ b2.address := by
  obtain ⟨htot, hinit, hpart, hadj, hacc, hpid⟩ := hwf
  obtain ⟨_, hs, hsfm, p, b, rest, hl, hfind, hbfree, hbsize, hp, ha, hcase⟩ :=
    allocate_ok m s pid a m' h
  have hbat : blockAt m.memoryBlocks p.length = b := by
    rw [hl]
    exact blockAt_append p b rest
  rw [hl] at hpart
  rw [partition_append] at hpart
  obtain ⟨hseg, hrest⟩ := hpart
  rw [partition_cons] at hrest
  obtain ⟨hb1, hb2, hbp⟩ := hrest
  refine ⟨p.length, hfind, by rw [hbat]; exact hbfree, by rw [hbat]; exact hbsize,
    by rw [hbat]; exact ha, ?_, ?_⟩
  · intro j hj
    have hj' : j < p.length := hj
    have hba := blockAt_append_lt p (b :: rest) j hj'
    rw [hl, hba.1]
    have hmem := hba.2
    have := hp _ hmem
    by_cases hall : (blockAt p j).allocated = true
    · exact Or.inl hall
    · right
      have hfree : (blockAt p j).allocated = false := by
        cases hb : (blockAt p j).allocated
        · rfl
        · exact absurd hb hall
      by_contra hsz
      exact this ⟨hfree, by omega⟩
  · intro b2 hb2mem hb2free hb2size
    rw [hbat]
    rw [hl] at hb2mem
    rcases List.mem_append.mp hb2mem with hb2p | hb2br
    · exact absurd ⟨hb2free, hb2size⟩ (hp b2 hb2p)
    · rcases List.mem_cons.mp hb2br with rfl | hb2rest
      · exact Nat.le_refl _
      · have := partition_mem_bounds hbp b2 hb2rest
        omega

/-- C2 witness: first fit on a concrete fragmented arena — the 150-byte
request skips the free 100-byte hole at address 0 is too small, so the free
block at address 300 is chosen. -/
theorem c2_first_fit_witness :
    WF ((initializeManager (mkManager 1024)).run
      [Op.alloc 100 1, Op.alloc 200 2, Op.free 0]) ∧
    (∃ i, findFreeBlockIdx 150 ((initializeManager (mkManager 1024)).run
        [Op.alloc 100 1, Op.alloc 200 2, Op.free 0]).memoryBlocks = some i ∧
      (blockAt ((initializeManager (mkManager 1024)).run
        [Op.alloc 100 1, Op.alloc 200 2, Op.free 0]).memoryBlocks
        i).allocated = false ∧
      150 ≤ (blockAt ((initializeManager (mkManager 1024)).run
        [Op.alloc 100 1, Op.alloc 200 2, Op.free 0]).memoryBlocks i).size ∧
      300 = (blockAt ((initializeManager (mkManager 1024)).run
        [Op.alloc 100 1, Op.alloc 200 2, Op.free 0]).memoryBlocks i).address ∧
      (∀ j, j < i → (blockAt ((initializeManager (mkManager 1024)).run
          [Op.alloc 100 1, Op.alloc 200 2, Op.free 0]).memoryBlocks
          j).allocated = true ∨
        (blockAt ((initializeManager (mkManager 1024)).run
          [Op.alloc 100 1, Op.alloc 200 2, Op.free 0]).memoryBlocks
          j).size < 150) ∧
      ∀ b2 ∈ ((initializeManager (mkManager 1024)).run
          [Op.alloc 100 1, Op.alloc 200 2, Op.free 0]).memoryBlocks,
        b2.allocated = false → 150 ≤ b2.size →
        (blockAt ((initializeManager (mkManager 1024)).run
          [Op.alloc 100 1, Op.alloc 200 2, Op.free 0]).memoryBlocks
          i).address ≤ b2.address) :=
  ⟨by decide, c2_first_fit ((initializeManager (mkManager 1024)).run
      [Op.alloc 100 1, Op.alloc 200 2, Op.free 0]) 150 9 300
    (((initializeManager (mkManager 1024)).run
      [Op.alloc 100 1, Op.alloc 200 2, Op.free 0]).allocate 150 9).2
    (by decide) (by decide)⟩

/-- C3: whenever `allocate` selects a free block of size `b.size` for a
request of size `s`: if the remainder `b.size - s` is at least 64 (the
`SPLIT_THRESHOLD`), the block is shrunk to exactly `s` and a new free block of
size `b.size - s` is inserted immediately after it at address `b.address + s`;
if the remainder is below 64 (including a remainder of 0), no split occurs,
the whole block is allocated, and the free total decreases by the whole
`b.size` (at most 63 bytes of which are waste). -/
theorem c3_split_policy (m : MemoryManager) (s : Nat) (pid : Int) (a : Nat)
    (m' : MemoryManager) (i : Nat) (hwf : WF m)
    (h : m.allocate s pid = (Except.ok a, m'))
    (hfind : findFreeBlockIdx s m.memoryBlocks = some i) :
    (64 ≤ (blockAt m.memoryBlocks i).size - s →
      blockAt m'.memoryBlocks i =
        ⟨(blockAt m.memoryBlocks i).address, s, true, pid⟩ ∧
      blockAt m'.memoryBlocks (i + 1) =
        ⟨(blockAt m.memoryBlocks i).address + s,
          (blockAt m.memoryBlocks i).size - s, false, -1⟩ ∧
      m'.memoryBlocks.length = m.memoryBlocks.length + 1 ∧
      m'.freeMemory = m.freeMemory - s ∧ s ≤ m.freeMemory) ∧
    ((blockAt m.memoryBlocks i).size - s < 64 →
      blockAt m'.memoryBlocks i =
        ⟨(blockAt m.memoryBlocks i).address,
          (blockAt m.memoryBlocks i).size, true, pid⟩ ∧
      m'.memoryBlocks.length = m.memoryBlocks.length ∧
      m'.freeMemory = m.freeMemory - (blockAt m.memoryBlocks i).size ∧
      (blockAt m.memoryBlocks i).size ≤ m.freeMemory) := by
  obtain ⟨htot, hinit, hpart, hadj, hacc, hpid⟩ := hwf
  obtain ⟨_, hs, hsfm, p, b, rest, hl, hfind2, hbfree, hbsize, hp, ha, hcase⟩ :=
    allocate_ok m s pid a m' h
  have hieq : i = p.length := by
    rw [hfind] at hfind2
    exact Option.some.inj hfind2
  subst hieq
  have hbat : blockAt m.memoryBlocks p.length = b := by
    rw [hl]
    exact blockAt_append p b rest
  have hble : b.size ≤ m.freeMemory := by
    rw [hl, freeSum_append, freeSum_cons, if_pos hbfree] at hacc
    omega
  rw [hbat]
  rcases hcase with ⟨hrem, rfl⟩ | ⟨hrem, rfl⟩
  · constructor
    · intro _
      refine ⟨?_, ?_, ?_, rfl, hsfm⟩
      · show blockAt (p ++ (⟨b.address, s, true, pid⟩ : MemoryBlock) ::
          (⟨b.address + s, b.size - s, false, -1⟩ : MemoryBlock) :: rest)
          p.length = _
        exact blockAt_append p _ _
      · show blockAt (p ++ (⟨b.address, s, true, pid⟩ : MemoryBlock) ::
          (⟨b.address + s, b.size - s, false, -1⟩ : MemoryBlock) :: rest)
          (p.length + 1) = _
        exact blockAt_append_right p _ 1
      · rw [hl]
        show (p ++ (⟨b.address, s, true, pid⟩ : MemoryBlock) ::
          (⟨b.address + s, b.size - s, false, -1⟩ : MemoryBlock) ::
          rest).length = (p ++ b :: rest).length + 1
        simp
        omega
    · intro hcon
      omega
  · constructor
    · intro hcon
      omega
    · intro _
      refine ⟨?_, ?_, rfl, hble⟩
      · show blockAt (p ++ (⟨b.address, b.size, true, pid⟩ : MemoryBlock) ::
          rest) p.length = _
        exact blockAt_append p _ _
      · rw [hl]
        show (p ++ (⟨b.address, b.size, true, pid⟩ : MemoryBlock) ::
          rest).length = (p ++ b :: rest).length
        simp

/-- C3 witness: both split branches evaluated — a 100-byte request on a fresh
1024-byte arena splits (remainder 924 ≥ 64), as reported at index 0. -/
theorem c3_split_policy_witness :
    WF (initializeManager (mkManager 1024)) ∧
    ((64 ≤ (blockAt (initializeManager (mkManager 1024)).memoryBlocks 0).size
        - 100 →
      blockAt ((initializeManager (mkManager 1024)).allocate
          100 7).2.memoryBlocks 0 =
        ⟨(blockAt (initializeManager (mkManager 1024)).memoryBlocks 0).address,
          100, true, 7⟩ ∧
      blockAt ((initializeManager (mkManager 1024)).allocate
          100 7).2.memoryBlocks (0 + 1) =
        ⟨(blockAt (initializeManager (mkManager 1024)).memoryBlocks 0).address
            + 100,
          (blockAt (initializeManager (mkManager 1024)).memoryBlocks 0).size
            - 100, false, -1⟩ ∧
      ((initializeManager (mkManager 1024)).allocate
          100 7).2.memoryBlocks.length =
        (initializeManager (mkManager 1024)).memoryBlocks.length + 1 ∧
      ((initializeManager (mkManager 1024)).allocate 100 7).2.freeMemory =
        (initializeManager (mkManager 1024)).freeMemory - 100 ∧
      100 ≤ (initializeManager (mkManager 1024)).freeMemory) ∧
    ((blockAt (initializeManager (mkManager 1024)).memoryBlocks 0).size
        - 100 < 64 →
      blockAt ((initializeManager (mkManager 1024)).allocate
          100 7).2.memoryBlocks 0 =
        ⟨(blockAt (initializeManager (mkManager 1024)).memoryBlocks 0).address,
          (blockAt (initializeManager (mkManager 1024)).memoryBlocks 0).size,
          true, 7⟩ ∧
      ((initializeManager (mkManager 1024)).allocate
          100 7).2.memoryBlocks.length =
        (initializeManager (mkManager 1024)).memoryBlocks.length ∧
      ((initializeManager (mkManager 1024)).allocate 100 7).2.freeMemory =
        (initializeManager (mkManager 1024)).freeMemory -
          (blockAt (initializeManager (mkManager 1024)).memoryBlocks 0).size ∧
      (blockAt (initializeManager (mkManager 1024)).memoryBlocks 0).size ≤
        (initializeManager (mkManager 1024)).freeMemory)) :=
  ⟨by decide, c3_split_policy (initializeManager (mkManager 1024)) 100 7 0
    ((initializeManager (mkManager 1024)).allocate 100 7).2 0
    (by decide) (by decide) (by decide)⟩

/-- C4 counterexample: the failure-condition part of the claim holds, but the
final conjunct — that NoSuitableBlock is distinguishable from OutOfMemory in
the result the caller receives — is false.  On an arena with two free 100-byte
holes (200 free bytes total), requesting 300 bytes fails on the out-of-memory
branch and requesting 150 bytes fails on the no-suitable-block branch, yet the
caller receives the same `size_t` 0 from both calls and the `mem-alloc`
handler produces the identical reply string for both; the two failures differ
only in the diagnostic printed to stderr. -/
theorem c4_counterexample :
    (((initializeManager (mkManager 1024)).run
      [Op.alloc 100 1, Op.alloc 100 2, Op.alloc 100 3, Op.alloc 724 4,
       Op.free 0, Op.free 200]).allocate 300 9).1 =
      Except.error AllocError.outOfMemory ∧
    (((initializeManager (mkManager 1024)).run
      [Op.alloc 100 1, Op.alloc 100 2, Op.alloc 100 3, Op.alloc 724 4,
       Op.free 0, Op.free 200]).allocate 150 9).1 =
      Except.error AllocError.noSuitableBlock ∧
    allocReturnValue (((initializeManager (mkManager 1024)).run
      [Op.alloc 100 1, Op.alloc 100 2, Op.alloc 100 3, Op.alloc 724 4,
       Op.free 0, Op.free 200]).allocate 300 9).1 =
    allocReturnValue (((initializeManager (mkManager 1024)).run
      [Op.alloc 100 1, Op.alloc 100 2, Op.alloc 100 3, Op.alloc 724 4,
       Op.free 0, Op.free 200]).allocate 150 9).1 ∧
    (memAllocReply ((initializeManager (mkManager 1024)).run
      [Op.alloc 100 1, Op.alloc 100 2, Op.alloc 100 3, Op.alloc 724 4,
       Op.free 0, Op.free 200]) 300 9).1 =
    (memAllocReply ((initializeManager (mkManager 1024)).run
      [Op.alloc 100 1, Op.alloc 100 2, Op.alloc 100 3, Op.alloc 724 4,
       Op.free 0, Op.free 200]) 150 9).1 := by
  decide

/-- C4 amended: on a well-formed arena, `allocate(size, owner)` takes the
InvalidSize branch exactly when size = 0, otherwise the OutOfMemory branch
exactly when size exceeds the arena's total free bytes (checked globally
before any search), otherwise the NoSuitableBlock branch exactly when no
single free block has sufficient size; however, the NoSuitableBlock failure is
NOT distinguishable from the OutOfMemory failure in the result the caller
receives — every failing call returns 0 and is reported by the command handler
with the same message — the branches differ only in the stderr diagnostic. -/
theorem c4_amended (m : MemoryManager) (s : Nat) (pid : Int) (hwf : WF m) :
    ((m.allocate s pid).1 = Except.error AllocError.invalidSize ↔ s = 0) ∧
    ((m.allocate s pid).1 = Except.error AllocError.outOfMemory ↔
      0 < s ∧ freeSum m.memoryBlocks < s) ∧
    ((m.allocate s pid).1 = Except.error AllocError.noSuitableBlock ↔
      0 < s ∧ s ≤ freeSum m.memoryBlocks ∧
      ∀ b ∈ m.memoryBlocks, b.allocated = true ∨ b.size < s) ∧
    (∀ e, (m.allocate s pid).1 = Except.error e →
      allocReturnValue (m.allocate s pid).1 = 0 ∧
      (memAllocReply m s pid).1 = "Failed to allocate memory") := by
  obtain ⟨htot, hinit, hpart, hadj, hacc, hpid⟩ := hwf
  by_cases hs : s = 0
  · have h1 : (m.allocate s pid).1 = Except.error AllocError.invalidSize := by
      rw [allocate_eq_invalidSize m s pid hinit hs]
    refine ⟨⟨fun _ => hs, fun _ => h1⟩, ?_, ?_, ?_⟩
    · constructor
      · intro hx
        rw [h1] at hx
        simp at hx
      · intro hx
        omega
    · constructor
      · intro hx
        rw [h1] at hx
        simp at hx
      · intro hx
        omega
    · intro e _
      exact ⟨by rw [h1]; rfl, memAllocReply_error m s pid _ h1⟩
  · by_cases hfm : m.freeMemory < s
    · have h1 : (m.allocate s pid).1 = Except.error AllocError.outOfMemory := by
        rw [allocate_eq_outOfMemory m s pid hinit hs hfm]
      refine ⟨?_, ⟨fun _ => ⟨by omega, by omega⟩, fun _ => h1⟩, ?_, ?_⟩
      · constructor
        · intro hx
          rw [h1] at hx
          simp at hx
        · intro hx
          exact absurd hx hs
      · constructor
        · intro hx
          rw [h1] at hx
          simp at hx
        · intro hx
          omega
      · intro e _
        exact ⟨by rw [h1]; rfl, memAllocReply_error m s pid _ h1⟩
    · cases hfind : findFreeBlockIdx s m.memoryBlocks with
      | none =>
        have h1 : (m.allocate s pid).1 =
            Except.error AllocError.noSuitableBlock := by
          rw [allocate_eq_noSuitable m s pid hinit hs hfm hfind]
        refine ⟨?_, ?_, ⟨fun _ => ⟨by omega, by omega,
          (findFreeBlockIdx_none s m.memoryBlocks).mp hfind⟩, fun _ => h1⟩, ?_⟩
        · constructor
          · intro hx
            rw [h1] at hx
            simp at hx
          · intro hx
            exact absurd hx hs
        · constructor
          · intro hx
            rw [h1] at hx
            simp at hx
          · intro hx
            omega
        · intro e _
          exact ⟨by rw [h1]; rfl, memAllocReply_error m s pid _ h1⟩
      | some i =>
        obtain ⟨a, h1⟩ := allocate_fst_ok m s pid i hinit hs hfm hfind
        obtain ⟨p, b, rest, hl, _, hbfree, hbsize, _⟩ :=
          findFreeBlockIdx_some s m.memoryBlocks i hfind
        have hbmem : b ∈ m.memoryBlocks := by
          rw [hl]
          exact List.mem_append.mpr (Or.inr (List.mem_cons_self b rest))
        refine ⟨?_, ?_, ?_, ?_⟩
        · constructor
          · intro hx
            rw [h1] at hx
            simp at hx
          · intro hx
            exact absurd hx hs
        · constructor
          · intro hx
            rw [h1] at hx
            simp at hx
          · intro hx
            omega
        · constructor
          · intro hx
            rw [h1] at hx
            simp at hx
          · rintro ⟨-, -, hall⟩
            rcases hall b hbmem with hb | hb
            · rw [hbfree] at hb
              cases hb
            · omega
        · intro e he
          rw [h1] at he
          simp at he

/-- C4 amended witness: the classification evaluated on the fragmented arena
of the counterexample. -/
theorem c4_amended_witness :
    WF ((initializeManager (mkManager 1024)).run
      [Op.alloc 100 1, Op.alloc 100 2, Op.alloc 100 3, Op.alloc 724 4,
       Op.free 0, Op.free 200]) ∧
    ((((initializeManager (mkManager 1024)).run
        [Op.alloc 100 1, Op.alloc 100 2, Op.alloc 100 3, Op.alloc 724 4,
         Op.free 0, Op.free 200]).allocate 150 9).1 =
          Except.error AllocError.invalidSize ↔ 150 = 0) ∧
    ((((initializeManager (mkManager 1024)).run
        [Op.alloc 100 1, Op.alloc 100 2, Op.alloc 100 3, Op.alloc 724 4,
         Op.free 0, Op.free 200]).allocate 150 9).1 =
          Except.error AllocError.outOfMemory ↔
      0 < 150 ∧ freeSum ((initializeManager (mkManager 1024)).run
        [Op.alloc 100 1, Op.alloc 100 2, Op.alloc 100 3, Op.alloc 724 4,
         Op.free 0, Op.free 200]).memoryBlocks < 150) ∧
    ((((initializeManager (mkManager 1024)).run
        [Op.alloc 100 1, Op.alloc 100 2, Op.alloc 100 3, Op.alloc 724 4,
         Op.free 0, Op.free 200]).allocate 150 9).1 =
          Except.error AllocError.noSuitableBlock ↔
      0 < 150 ∧ 150 ≤ freeSum ((initializeManager (mkManager 1024)).run
        [Op.alloc 100 1, Op.alloc 100 2, Op.alloc 100 3, Op.alloc 724 4,
         Op.free 0, Op.free 200]).memoryBlocks ∧
      ∀ b ∈ ((initializeManager (mkManager 1024)).run
        [Op.alloc 100 1, Op.alloc 100 2, Op.alloc 100 3, Op.alloc 724 4,
         Op.free 0, Op.free 200]).memoryBlocks,
        b.allocated = true ∨ b.size < 150) ∧
    (∀ e, (((initializeManager (mkManager 1024)).run
        [Op.alloc 100 1, Op.alloc 100 2, Op.alloc 100 3, Op.alloc 724 4,
         Op.free 0, Op.free 200]).allocate 150 9).1 = Except.error e →
      allocReturnValue (((initializeManager (mkManager 1024)).run
        [Op.alloc 100 1, Op.alloc 100 2, Op.alloc 100 3, Op.alloc 724 4,
         Op.free 0, Op.free 200]).allocate 150 9).1 = 0 ∧
      (memAllocReply ((initializeManager (mkManager 1024)).run
        [Op.alloc 100 1, Op.alloc 100 2, Op.alloc 100 3, Op.alloc 724 4,
         Op.free 0, Op.free 200]) 150 9).1 = "Failed to allocate memory") :=
  ⟨by decide, c4_amended ((initializeManager (mkManager 1024)).run
    [Op.alloc 100 1, Op.alloc 100 2, Op.alloc 100 3, Op.alloc 724 4,
     Op.free 0, Op.free 200]) 150 9 (by decide)⟩

/-- C7 counterexample: after blocks at 0 and 100 are allocated (100 bytes
each) and address 0 is freed, freeing address 100 succeeds and coalesces the
whole arena into one block starting at 0 — so the freed block's address 100
disappears, and the immediately following second `free(100)` fails on the
address-lookup path (`NotFound`, diagnostic "No memory block found"), not on
the already-free path (`DoubleFree`).  The failing call does leave the arena
unchanged. -/
theorem c7_counterexample :
    (((initializeManager (mkManager 1024)).run
      [Op.alloc 100 1, Op.alloc 100 2, Op.free 0]).free 100).1 =
      Except.ok () ∧
    ((((initializeManager (mkManager 1024)).run
      [Op.alloc 100 1, Op.alloc 100 2, Op.free 0]).free 100).2.free 100).1 =
      Except.error FreeError.notFound ∧
    ((((initializeManager (mkManager 1024)).run
      [Op.alloc 100 1, Op.alloc 100 2, Op.free 0]).free 100).2.free 100).1 ≠
      Except.error FreeError.doubleFree ∧
    ((((initializeManager (mkManager 1024)).run
      [Op.alloc 100 1, Op.alloc 100 2, Op.free 0]).free 100).2.free 100).2 =
    (((initializeManager (mkManager 1024)).run
      [Op.alloc 100 1, Op.alloc 100 2, Op.free 0]).free 100).2 := by
  decide

/-- C7 amended: after `free(a)` succeeds on a well-formed arena, an
immediately following second `free(a)` always fails and leaves the arena state
completely unchanged; the failure is `DoubleFree` when a block with address
`a` still exists (the freed block was not coalesced into a lower-address free
neighbour), and `NotFound` when coalescing removed address `a`. -/
theorem c7_amended (m : MemoryManager) (addr : Nat) (m' : MemoryManager)
    (hwf : WF m) (h : m.free addr = (Except.ok (), m')) :
    ((∃ i, findBlockIdxByAddress addr m'.memoryBlocks = some i) →
      m'.free addr = (Except.error FreeError.doubleFree, m')) ∧
    (findBlockIdxByAddress addr m'.memoryBlocks = none →
      m'.free addr = (Except.error FreeError.notFound, m')) := by
  have hwf' := wf_free m addr m' hwf h
  have hinit' : m'.isInitialized = true := hwf'.2.1
  constructor
  · rintro ⟨i, hi⟩
    obtain ⟨htot, hinit, hpart, hadj, hacc, hpid⟩ := hwf
    obtain ⟨_, p, b, rest, hl, hfind, haddr, halloc, hp, hm'⟩ :=
      free_ok m addr m' h
    have hPmarked : ∀ x ∈ p ++ (⟨b.address, b.size, false, -1⟩ :
        MemoryBlock) :: rest, x.address = addr → x.allocated = false := by
      intro x hx hxa
      rcases List.mem_append.mp hx with hxp | hxbr
      · exact absurd hxa (hp x hxp)
      · rcases List.mem_cons.mp hxbr with rfl | hxr
        · rfl
        · exfalso
          rw [hl, partition_append] at hpart
          have hrest := hpart.2
          rw [partition_cons] at hrest
          have hxb := partition_mem_bounds hrest.2.2 x hxr
          have hb1 := hrest.1
          have hb2 := hrest.2.1
          omega
    have hPm' : ∀ x ∈ m'.memoryBlocks, x.address = addr →
        x.allocated = false := by
      have hsub : m'.memoryBlocks = mergeBlocks
          (p ++ (⟨b.address, b.size, false, -1⟩ : MemoryBlock) :: rest) := by
        rw [hm']
      rw [hsub]
      exact mergeBlocks_inv
        (fun l => ∀ x ∈ l, x.address = addr → x.allocated = false)
        (fun l1 l2 hm hP => addrFree_mergeOnce addr l1 l2 hm hP) _ hPmarked
    obtain ⟨p2, b2, rest2, hl2, hlen2, hb2addr, _⟩ :=
      findBlockIdxByAddress_some addr m'.memoryBlocks i hi
    have hbat2 : blockAt m'.memoryBlocks i = b2 := by
      rw [hl2, ← hlen2]
      exact blockAt_append p2 b2 rest2
    have hb2mem : b2 ∈ m'.memoryBlocks := by
      rw [hl2]
      exact List.mem_append.mpr (Or.inr (List.mem_cons_self b2 rest2))
    have hb2free : (blockAt m'.memoryBlocks i).allocated = false := by
      rw [hbat2]
      exact hPm' b2 hb2mem hb2addr
    exact free_eq_doubleFree m' addr i hinit' hi hb2free
  · intro hnone
    exact free_eq_notFound m' addr hinit' hnone

/-- C7 amended witness: freeing address 0 twice — the freed block coalesces
only with its successor, so address 0 survives and the second call fails with
DoubleFree, leaving the state unchanged. -/
theorem c7_amended_witness :
    WF (((initializeManager (mkManager 1024)).allocate 100 1).2) ∧
    ((((initializeManager (mkManager 1024)).allocate 100 1).2.free 0 =
      (Except.ok (),
        (((initializeManager (mkManager 1024)).allocate 100 1).2.free 0).2)) ∧
    (((∃ i, findBlockIdxByAddress 0
        ((((initializeManager (mkManager 1024)).allocate
          100 1).2.free 0).2).memoryBlocks = some i) →
      ((((initializeManager (mkManager 1024)).allocate
        100 1).2.free 0).2).free 0 =
        (Except.error FreeError.doubleFree,
         (((initializeManager (mkManager 1024)).allocate
           100 1).2.free 0).2)) ∧
    (findBlockIdxByAddress 0
        ((((initializeManager (mkManager 1024)).allocate
          100 1).2.free 0).2).memoryBlocks = none →
      ((((initializeManager (mkManager 1024)).allocate
        100 1).2.free 0).2).free 0 =
        (Except.error FreeError.notFound,
         (((initializeManager (mkManager 1024)).allocate
           100 1).2.free 0).2)))) :=
  ⟨by decide, by decide,
   c7_amended (((initializeManager (mkManager 1024)).allocate 100 1).2) 0
     ((((initializeManager (mkManager 1024)).allocate 100 1).2.free 0).2)
     (by decide) (by decide)⟩

/-- C8: if `allocate(n, owner)` succeeds on a well-formed arena returning
address `a`, then an immediately following `free(a)` — so that `a` is the last
outstanding allocation — succeeds and restores the arena to exactly its
pre-allocation state: the same block boundaries, statuses and owners, and the
same free and used totals. -/
theorem c8_round_trip (m : MemoryManager) (n : Nat) (pid : Int) (a : Nat)
    (m' : MemoryManager) (hwf : WF m)
    (h : m.allocate n pid = (Except.ok a, m')) :
    m'.free a = (Except.ok (), m) := by
  obtain ⟨htot, hinit, hpart, hadj, hacc, hpid⟩ := hwf
  obtain ⟨_, hs, hsfm, p, b, rest, hl, hfind, hbfree, hbsize, hp, ha, hcase⟩ :=
    allocate_ok m n pid a m' h
  obtain ⟨ba, bs, bal, bp⟩ := b
  simp only [] at hbfree hbsize ha
  subst hbfree
  have hbpid : bp = -1 := by
    rw [hl, freePidOk_append, freePidOk_cons] at hpid
    rcases hpid.2.1 with hb | hb
    · cases hb
    · exact hb
  subst hbpid
  subst a
  rw [hl, partition_append] at hpart
  obtain ⟨hseg, hrest⟩ := hpart
  rw [partition_cons] at hrest
  simp only [] at hrest
  obtain ⟨hb1, hb2, hbp⟩ := hrest
  have hpaddr : ∀ x ∈ p, x.address ≠ ba := by
    intro x hx
    have := partition_mem_bounds hseg x hx
    omega
  rw [hl] at hadj
  have hadjL : noAdjacentFree (p ++ [(⟨ba, bs, false, -1⟩ : MemoryBlock)])
      = true := by
    have := hadj
    simp only [noAdjacentFree] at this ⊢
    exact ((chainPred_append_iff _ p _ rest).mp this).1
  rw [hl] at hacc
  rw [freeSum_append, freeSum_cons,
    if_pos (show ((⟨ba, bs, false, -1⟩ : MemoryBlock)).allocated = false
      from rfl)] at hacc
  simp only [] at hacc
  rcases hcase with ⟨hrem, rfl⟩ | ⟨hrem, rfl⟩
  · -- split case: the arena now holds the shrunk allocated block followed by
    -- the free remainder; freeing merges them back into the original block.
    have hfind' : findBlockIdxByAddress ba
        (p ++ (⟨ba, n, true, pid⟩ : MemoryBlock) ::
          (⟨ba + n, bs - n, false, -1⟩ : MemoryBlock) :: rest) =
        some p.length :=
      findBlockIdxByAddress_append ba p _ _ hpaddr rfl
    have hbat' : blockAt
        (p ++ (⟨ba, n, true, pid⟩ : MemoryBlock) ::
          (⟨ba + n, bs - n, false, -1⟩ : MemoryBlock) :: rest) p.length =
        ⟨ba, n, true, pid⟩ :=
      blockAt_append p _ _
    have hfr := free_eq_ok
      { m with
          memoryBlocks := p ++ (⟨ba, n, true, pid⟩ : MemoryBlock) ::
            (⟨ba + n, bs - n, false, -1⟩ : MemoryBlock) :: rest,
          freeMemory := m.freeMemory - n }
      ba p.length hinit hfind' (by rw [hbat'])
    rw [hfr]
    have hmf : markFree
        (p ++ (⟨ba, n, true, pid⟩ : MemoryBlock) ::
          (⟨ba + n, bs - n, false, -1⟩ : MemoryBlock) :: rest) p.length =
        p ++ (⟨ba, n, false, -1⟩ : MemoryBlock) ::
          (⟨ba + n, bs - n, false, -1⟩ : MemoryBlock) :: rest :=
      markFree_append p _ _
    have hnm : noMergeable (p ++ [(⟨ba, n, false, -1⟩ : MemoryBlock)])
        = true :=
      noMergeable_prefix hadjL rfl
    have hstep : mergeOnceAux ((⟨ba, n, false, -1⟩ : MemoryBlock) ::
        (⟨ba + n, bs - n, false, -1⟩ : MemoryBlock) :: rest) =
        some ((⟨ba, bs, false, -1⟩ : MemoryBlock) :: rest) := by
      rw [show mergeOnceAux ((⟨ba, n, false, -1⟩ : MemoryBlock) ::
          (⟨ba + n, bs - n, false, -1⟩ : MemoryBlock) :: rest) =
        if mergeablePair ⟨ba, n, false, -1⟩ ⟨ba + n, bs - n, false, -1⟩ then
          some ({ (⟨ba, n, false, -1⟩ : MemoryBlock) with
            size := n + (bs - n) } :: rest)
        else (mergeOnceAux ((⟨ba + n, bs - n, false, -1⟩ : MemoryBlock) ::
          rest)).map ((⟨ba, n, false, -1⟩ : MemoryBlock) :: ·) from rfl]
      rw [if_pos (by simp [mergeablePair])]
      rw [show n + (bs - n) = bs by omega]
    have hmerge1 : mergeOnceAux
        (p ++ (⟨ba, n, false, -1⟩ : MemoryBlock) ::
          (⟨ba + n, bs - n, false, -1⟩ : MemoryBlock) :: rest) =
        some (p ++ (⟨ba, bs, false, -1⟩ : MemoryBlock) :: rest) := by
      rw [mergeOnceAux_append p _ _ hnm, hstep]
      rfl
    have horig : mergeOnceAux
        (p ++ (⟨ba, bs, false, -1⟩ : MemoryBlock) :: rest) = none :=
      (mergeOnceAux_none_iff _).mpr (noAdjacentFree_noMergeable hadj)
    have hmb := mergeBlocks_once_then_none hmerge1 horig
    show (Except.ok (),
      { m with
          memoryBlocks := mergeBlocks (markFree
            (p ++ (⟨ba, n, true, pid⟩ : MemoryBlock) ::
              (⟨ba + n, bs - n, false, -1⟩ : MemoryBlock) :: rest) p.length),
          freeMemory := m.freeMemory - n +
            (blockAt (p ++ (⟨ba, n, true, pid⟩ : MemoryBlock) ::
              (⟨ba + n, bs - n, false, -1⟩ : MemoryBlock) :: rest)
              p.length).size }) = (Except.ok (), m)
    rw [hmf, hmb, hbat']
    rw [show m.freeMemory - n +
      ((⟨ba, n, true, pid⟩ : MemoryBlock)).size = m.freeMemory by
        simp only []
        omega]
    rw [← hl]
  · -- no-split case: the whole block was handed out; freeing marks it free
    -- again and coalescing finds nothing to merge.
    have hfind' : findBlockIdxByAddress ba
        (p ++ (⟨ba, bs, true, pid⟩ : MemoryBlock) :: rest) = some p.length :=
      findBlockIdxByAddress_append ba p _ _ hpaddr rfl
    have hbat' : blockAt (p ++ (⟨ba, bs, true, pid⟩ : MemoryBlock) :: rest)
        p.length = ⟨ba, bs, true, pid⟩ :=
      blockAt_append p _ _
    have hfr := free_eq_ok
      { m with
          memoryBlocks := p ++ (⟨ba, bs, true, pid⟩ : MemoryBlock) :: rest,
          freeMemory := m.freeMemory - bs }
      ba p.length hinit hfind' (by rw [hbat'])
    rw [hfr]
    have hmf : markFree (p ++ (⟨ba, bs, true, pid⟩ : MemoryBlock) :: rest)
        p.length = p ++ (⟨ba, bs, false, -1⟩ : MemoryBlock) :: rest :=
      markFree_append p _ _
    have hmb : mergeBlocks
        (p ++ (⟨ba, bs, false, -1⟩ : MemoryBlock) :: rest) =
        p ++ (⟨ba, bs, false, -1⟩ : MemoryBlock) :: rest :=
      mergeBlocks_of_noMergeable (noAdjacentFree_noMergeable hadj)
    show (Except.ok (),
      { m with
          memoryBlocks := mergeBlocks (markFree
            (p ++ (⟨ba, bs, true, pid⟩ : MemoryBlock) :: rest) p.length),
          freeMemory := m.freeMemory - bs +
            (blockAt (p ++ (⟨ba, bs, true, pid⟩ : MemoryBlock) :: rest)
              p.length).size }) = (Except.ok (), m)
    rw [hmf, hmb, hbat']
    rw [show m.freeMemory - bs +
      ((⟨ba, bs, true, pid⟩ : MemoryBlock)).size = m.freeMemory by
        simp only []
        omega]
    rw [← hl]

/-- C8 witness: a 100-byte allocation on a fresh 1024-byte arena, immediately
freed, restores the exact initial state. -/
theorem c8_round_trip_witness :
    WF (initializeManager (mkManager 1024)) ∧
    ((initializeManager (mkManager 1024)).allocate 100 7 =
      (Except.ok 0,
       ((initializeManager (mkManager 1024)).allocate 100 7).2)) ∧
    ((initializeManager (mkManager 1024)).allocate 100 7).2.free 0 =
      (Except.ok (), initializeManager (mkManager 1024)) :=
  ⟨by decide, by decide,
   c8_round_trip (initializeManager (mkManager 1024)) 100 7 0
     ((initializeManager (mkManager 1024)).allocate 100 7).2
     (by decide) (by decide)⟩

end MiniOS
